import Mathlib

/-!
Verification of the streaming core of the `kagi_client` library: the two
event framers (`parse_sse_events`, `parse_kagi_stream_lines` in
`kagi_client/streams.py`) and the stream reducers built on them
(`proofread.py`, `summarizer.py`, `assistant.py`, `search.py`).

Python strings are modelled as `String` (lists of characters); splitting,
stripping and joining are modelled character-exactly.  Python `json.loads`
(and `json.JSONDecoder().raw_decode` in `assistant.py`) are modelled as an
explicit decode parameter `String → Option Json` of each reducer: `none`
models a raised `JSONDecodeError`; theorems quantify over the decoder, and
concrete instances agree with `json.loads` on every payload they are
applied to.  Python exceptions are modelled with `Except PyErr`.
-/

namespace KagiSpec

/-- ASCII whitespace recognised by Python `str.strip()` (the protocol text
handled by this library is ASCII). -/
def pyWs (c : Char) : Bool :=
  c = ' ' || c = '\t' || c = '\n' || c = '\r' || c = '\x0b' || c = '\x0c'

/-- Python `s.strip()` on a list of characters. -/
def pyStrip (l : List Char) : List Char :=
  (l.dropWhile pyWs).rdropWhile pyWs

/-- Python `s.strip() == ""` for a line: every character is whitespace. -/
def pyBlank (l : List Char) : Bool := l.all pyWs

/-- Python `text.split("\n")`: the lines of the raw response text. -/
def pyLines (s : String) : List (List Char) := s.data.splitOn '\n'

/-- Join a list of character lists with a newline: Python `"\n".join(...)`. -/
def joinNl (ls : List (List Char)) : List Char := ['\n'].intercalate ls

/-! ### SSE framer (`streams.parse_sse_events`) -/

/-- One SSE frame, as produced by `parse_sse_events`. -/
structure SSEEvent where
  event : Option String
  data : String
  id : Option String
deriving DecidableEq, Repr

/-- The three accumulators of the `parse_sse_events` loop:
`current_event`, `current_data`, `current_id`. -/
structure SSEAcc where
  event : Option (List Char)
  data : List (List Char)
  id : Option (List Char)
deriving DecidableEq, Repr

/-- All accumulators reset. -/
def emptyAcc : SSEAcc := ⟨none, [], none⟩

/-- The loop body of `parse_sse_events` on one non-blank line: the
`elif` chain on the `event:`, `data:`, `id:` prefixes; `data:` lines
append `line[len("data:"):].strip()`; comment and bare lines are skipped. -/
def stepLine (acc : SSEAcc) (l : List Char) : SSEAcc :=
  if "event:".data.isPrefixOf l then { acc with event := some (pyStrip (l.drop 6)) }
  else if "data:".data.isPrefixOf l then { acc with data := acc.data ++ [pyStrip (l.drop 5)] }
  else if "id:".data.isPrefixOf l then { acc with id := some (pyStrip (l.drop 3)) }
  else acc

/-- The blank-line flush of `parse_sse_events`: an event is emitted iff at
least one `data:` line was accumulated (`if current_data:`); the data lines
are joined with `"\n"`. -/
def flushAcc (acc : SSEAcc) : Option SSEEvent :=
  if acc.data = [] then none
  else some ⟨acc.event.map String.mk, String.mk (joinNl acc.data), acc.id.map String.mk⟩

/-- The `for line in text.split("\n")` loop of `parse_sse_events`. -/
def sseLoop : List (List Char) → SSEAcc → List SSEEvent
  | [], _ => []
  | l :: ls, acc =>
    if l = [] then (flushAcc acc).toList ++ sseLoop ls emptyAcc
    else sseLoop ls (stepLine acc l)

/-- `streams.parse_sse_events`: parse SSE text into a list of events. -/
def parse_sse_events (text : String) : List SSEEvent :=
  sseLoop (pyLines text) emptyAcc

/-! ### Proprietary framer (`streams.parse_kagi_stream_lines`) -/

/-- First character class of `_TAG_RE`: `[a-zA-Z_]`. -/
def isTagStart (c : Char) : Bool := c.isAlpha || c = '_'

/-- Continuation character class of `_TAG_RE`: `[a-zA-Z0-9_.\-]`. -/
def isTagChar (c : Char) : Bool := c.isAlphanum || c = '_' || c = '.' || c = '-'

/-- `_TAG_RE.match(line)` for `^([a-zA-Z_][a-zA-Z0-9_.\-]*):(.*)$`:
returns the tag (`group(1)`) and the inline remainder (`group(2)`).
Since `:` is not in the starred class, the greedy star is equivalent to
taking the maximal run of tag characters and requiring a `:` after it. -/
def tagSplit : List Char → Option (List Char × List Char)
  | [] => none
  | c :: cs =>
    if isTagStart c then
      match cs.dropWhile isTagChar with
      | ':' :: rest => some (c :: cs.takeWhile isTagChar, rest)
      | _ => none
    else none

/-- One frame of the proprietary `tag:payload` format. -/
structure KagiStreamLine where
  tag : String
  payload : String
deriving DecidableEq, Repr

/-- `streams.parse_kagi_stream_line`: match `_TAG_RE` against
`line.strip()`. -/
def parse_kagi_stream_line (line : String) : Option KagiStreamLine :=
  match tagSplit (pyStrip line.data) with
  | some (t, p) => some ⟨String.mk t, String.mk p⟩
  | none => none

/-- Emission of one frame in `parse_kagi_stream_lines`: the payload parts
(the tag line's inline remainder followed by the collected continuation
lines) are `"\n"`-joined after filtering out blank parts
(`"\n".join(p for p in payload_parts if p.strip())`). -/
def emitFrame (t : List Char) (parts : List (List Char)) : KagiStreamLine :=
  ⟨String.mk t, String.mk (joinNl (parts.filter (fun p => !pyBlank p)))⟩

/-- The scanning loop of `parse_kagi_stream_lines` (lines 74–104 of
`streams.py`), with the inner continuation-collecting `while` loop inlined
into a single pass: the second argument is the current open frame
(tag and accumulated payload parts), `none` while no tag line has been
seen.  Outside a frame, blank and non-tag-matching lines are dropped and a
tag-matching line opens a frame seeded with its inline remainder.  Inside
a frame, blank lines are skipped without closing the frame, a
tag-matching line emits the open frame and opens a new one, any other
line is appended as a continuation part, and end of input emits the open
frame. -/
def kagiGo : List (List Char) → Option (List Char × List (List Char)) → List KagiStreamLine
  | [], none => []
  | [], some (t, parts) => [emitFrame t parts]
  | l :: ls, none =>
    if pyBlank l then kagiGo ls none
    else
      match tagSplit l with
      | some (t, rem) => kagiGo ls (some (t, [rem]))
      | none => kagiGo ls none
  | l :: ls, some (t, parts) =>
    if pyBlank l then kagiGo ls (some (t, parts))
    else
      match tagSplit l with
      | some (t2, rem2) => emitFrame t parts :: kagiGo ls (some (t2, [rem2]))
      | none => kagiGo ls (some (t, parts ++ [l]))

/-- `streams.parse_kagi_stream_lines`. -/
def parse_kagi_stream_lines (text : String) : List KagiStreamLine :=
  kagiGo (pyLines text) none

/-! ### Python value and exception model -/

/-- Decoded JSON values (the results of `json.loads`).  Numbers are
modelled as integers: no claim computes with fractional values. -/
inductive Json where
  | null : Json
  | bool (b : Bool) : Json
  | num (n : Int) : Json
  | str (s : String) : Json
  | arr (xs : List Json) : Json
  | obj (kvs : List (String × Json)) : Json

/-- The Python exceptions the streaming core can raise.  `jsonError`
models `json.JSONDecodeError` (a `ValueError`), `apiError` the library's
`errors.APIError` with its message. -/
inductive PyErr where
  | jsonError : PyErr
  | keyError : PyErr
  | typeError : PyErr
  | attrError : PyErr
  | indexError : PyErr
  | apiError (msg : String) : PyErr
deriving DecidableEq, Repr

/-- Key lookup in a decoded JSON object (Python dict keys are unique). -/
def jlookup (kvs : List (String × Json)) (k : String) : Option Json :=
  (kvs.find? (fun kv => kv.1 = k)).map (·.2)

/-- Python `d.get(k)`: `None` (here `none`) when the key is absent;
raises `AttributeError` when `d` is not a dict. -/
def jget (d : Json) (k : String) : Except PyErr (Option Json) :=
  match d with
  | .obj kvs => .ok (jlookup kvs k)
  | _ => .error .attrError

/-- Python `d.get(k, default)`. -/
def jgetD (d : Json) (k : String) (dflt : Json) : Except PyErr Json :=
  (jget d k).map (·.getD dflt)

/-- Python `d[k]` on a decoded JSON value: `KeyError` when the key is
absent from a dict, `TypeError` when `d` is not a dict. -/
def jindex (d : Json) (k : String) : Except PyErr Json :=
  match d with
  | .obj kvs =>
    match jlookup kvs k with
    | some v => .ok v
    | none => .error .keyError
  | _ => .error .typeError

/-- Equality of a decoded JSON value with a Python string literal
(Python `==`: values of other types are simply unequal to a `str`). -/
def jeqStr (d : Json) (s : String) : Bool :=
  match d with
  | .str t => t = s
  | _ => false

/-- Python `needle in hay` for strings: contiguous substring test. -/
def strContains (hay needle : List Char) : Bool :=
  match hay with
  | [] => needle.isEmpty
  | _ :: t => needle.isPrefixOf hay || strContains t needle

/-- Python `k in d` for a decoded JSON value: key membership for dicts,
element membership for lists, substring test for strings, `TypeError`
otherwise. -/
def jin (k : String) (d : Json) : Except PyErr Bool :=
  match d with
  | .obj kvs => .ok (kvs.any (fun kv => kv.1 = k))
  | .arr xs => .ok (xs.any (fun x => jeqStr x k))
  | .str s => .ok (strContains s.data k.data)
  | _ => .error .typeError

/-! ### Summarizer reducer (`summarizer._parse_summary_response`)

Result fields hold the decoded JSON values assigned by the Python code;
the dataclass type annotations in `models.py` are not enforced at
runtime, so fields are `Json`-typed here. -/

/-- `models.WordStats`. -/
structure WordStats where
  n_tokens : Json
  n_words : Json
  n_pages : Json
  time_saved : Json
  length : Json

/-- `models.ResponseMetadata`. -/
structure ResponseMetadata where
  speed : Json
  tokens : Json
  total_time_second : Json
  model : Json
  version : Json
  cost : Json

/-- `models.SummaryResult`. -/
structure SummaryResult where
  output_text : Json
  markdown : Json
  status : Json
  word_stats : WordStats
  response_metadata : ResponseMetadata
  elapsed_seconds : Json
  title : Json

/-- Lines 110–135 of `summarizer.py`: build the `SummaryResult` from the
chosen record `final_data`. -/
def mkSummaryResult (final_data : Json) : Except PyErr SummaryResult := do
  let od ← jgetD final_data "output_data" (.obj [])
  let ws_raw ← jgetD od "word_stats" (.obj [])
  let rm_raw ← jgetD od "response_metadata" (.obj [])
  pure
    { output_text := ← jgetD final_data "output_text" (.str "")
      markdown := ← jgetD od "markdown" (.str "")
      status := ← jgetD od "status" (.str "")
      word_stats :=
        { n_tokens := ← jgetD ws_raw "n_tokens" (.num 0)
          n_words := ← jgetD ws_raw "n_words" (.num 0)
          n_pages := ← jgetD ws_raw "n_pages" (.num 0)
          time_saved := ← jgetD ws_raw "time_saved" (.num 0)
          length := (← jget ws_raw "length").getD .null }
      response_metadata :=
        { speed := (← jget rm_raw "speed").getD .null
          tokens := ← jgetD rm_raw "tokens" (.num 0)
          total_time_second := ← jgetD rm_raw "total_time_second" (.num 0)
          model := ← jgetD rm_raw "model" (.str "")
          version := ← jgetD rm_raw "version" (.str "")
          cost := ← jgetD rm_raw "cost" (.num 0) }
      elapsed_seconds := (← jget od "elapsed_seconds").getD .null
      title := ← jgetD od "title" (.str "") }

/-- First loop of `_parse_summary_response`: decode each frame payload in
order and return the first record whose `type` is `"final"` (the `break`),
or `none` when the stream is exhausted. -/
def summaryFindFinal (jl : String → Option Json) :
    List KagiStreamLine → Except PyErr (Option Json)
  | [] => .ok none
  | l :: ls =>
    match jl l.payload with
    | none => .error .jsonError
    | some d => do
      let t ← jget d "type"
      if t.any (fun v => jeqStr v "final") then .ok (some d)
      else summaryFindFinal jl ls

/-- Second loop of `_parse_summary_response` (applied to the reversed
frame list): the first record whose `output_data.status` is
`"completed"`. -/
def summaryFindCompleted (jl : String → Option Json) :
    List KagiStreamLine → Except PyErr (Option Json)
  | [] => .ok none
  | l :: ls =>
    match jl l.payload with
    | none => .error .jsonError
    | some d => do
      let od ← jgetD d "output_data" (.obj [])
      let st ← jget od "status"
      if st.any (fun v => jeqStr v "completed") then .ok (some d)
      else summaryFindCompleted jl ls

/-- `summarizer._parse_summary_response` from the framed lines onwards:
prefer the first `type == "final"` record, else the last
`output_data.status == "completed"` record, else the decoded last frame
(`lines[-1]`, an `IndexError` when there are no frames). -/
def summaryReduce (jl : String → Option Json) (lines : List KagiStreamLine) :
    Except PyErr SummaryResult := do
  let ffinal ← summaryFindFinal jl lines
  let fd1 ←
    match ffinal with
    | some d => pure (some d)
    | none => summaryFindCompleted jl lines.reverse
  let final_data ←
    match fd1 with
    | some d => pure d
    | none =>
      match lines.getLast? with
      | none => .error .indexError
      | some l =>
        match jl l.payload with
        | none => .error .jsonError
        | some d => pure d
  mkSummaryResult final_data

/-- `summarizer._parse_summary_response` on raw response text. -/
def parse_summary_response (jl : String → Option Json) (text : String) :
    Except PyErr SummaryResult :=
  summaryReduce jl (parse_kagi_stream_lines text)

/-! ### Assistant reducer (`assistant._parse_assistant_response`) and the
token-stream snapshot filter of `AssistantClient.prompt_stream` -/

/-- `models.AssistantThread`. -/
structure AssistantThread where
  id : Json
  title : Json
  created_at : Json
  expires_at : Json
  saved : Json
  shared : Json

/-- `models.AssistantMessage`. -/
structure AssistantMessage where
  id : Json
  created_at : Json
  state : Json
  prompt : Json
  reply : Json
  md : Json

/-- `models.AssistantResult`. -/
structure AssistantResult where
  thread : AssistantThread
  message : AssistantMessage

/-- Lines 152–159 of `assistant.py`: build an `AssistantThread` from a
decoded `thread.json` payload. -/
def mkAssistantThread (d : Json) : Except PyErr AssistantThread := do
  pure
    { id := ← jindex d "id"
      title := ← jindex d "title"
      created_at := ← jindex d "created_at"
      expires_at := ← jgetD d "expires_at" (.str "")
      saved := ← jgetD d "saved" (.bool false)
      shared := ← jgetD d "shared" (.bool false) }

/-- Lines 163–170 of `assistant.py`: build an `AssistantMessage` from a
decoded `new_message.json` payload. -/
def mkAssistantMessage (d : Json) : Except PyErr AssistantMessage := do
  pure
    { id := ← jindex d "id"
      created_at := ← jindex d "created_at"
      state := ← jindex d "state"
      prompt := ← jindex d "prompt"
      reply := (← jget d "reply").getD .null
      md := (← jget d "md").getD .null }

/-- The frame loop of `_parse_assistant_response`: each `thread.json`
frame overwrites the thread, each `new_message.json` frame overwrites the
message (last one wins), other tags are ignored.  `pj` models
`assistant._parse_json` (`raw_decode` of the stripped payload, tolerating
trailing data); `none` models a raised decode error. -/
def assistantLoop (pj : String → Option Json) :
    List KagiStreamLine → Option AssistantThread → Option AssistantMessage →
    Except PyErr (Option AssistantThread × Option AssistantMessage)
  | [], th, msg => .ok (th, msg)
  | l :: ls, th, msg =>
    if l.tag = "thread.json" then
      match pj l.payload with
      | none => .error .jsonError
      | some d => do
        let t ← mkAssistantThread d
        assistantLoop pj ls (some t) msg
    else if l.tag = "new_message.json" then
      match pj l.payload with
      | none => .error .jsonError
      | some d => do
        let m ← mkAssistantMessage d
        assistantLoop pj ls th (some m)
    else assistantLoop pj ls th msg

/-- `assistant._parse_assistant_response` from the framed lines onwards:
run the loop, then fail with the library's `APIError` if no `thread.json`
or no `new_message.json` frame was seen. -/
def assistantReduce (pj : String → Option Json) (lines : List KagiStreamLine) :
    Except PyErr AssistantResult := do
  let (th, msg) ← assistantLoop pj lines none none
  match th with
  | none => .error (.apiError "No thread.json found in response")
  | some t =>
    match msg with
    | none => .error (.apiError "No new_message.json found in response")
    | some m => .ok ⟨t, m⟩

/-- `assistant._parse_assistant_response` on raw response text. -/
def parse_assistant_response (pj : String → Option Json) (text : String) :
    Except PyErr AssistantResult :=
  assistantReduce pj (parse_kagi_stream_lines text)

/-- Lines 129–140 of `assistant.py` (`AssistantClient.prompt_stream`),
restricted to the sequence of extracted `tokens.json` full-text
snapshots: a snapshot is yielded iff it is non-empty (`if full_text`) and
differs from `prev_text`, and `prev_text` (initially `""`) is updated
only on a yield. -/
def promptStreamYields : List String → String → List String
  | [], _ => []
  | t :: ts, prev =>
    if t ≠ "" ∧ t ≠ prev then t :: promptStreamYields ts t
    else promptStreamYields ts prev

/-! ### Proofread reducer (`proofread._parse_proofread_response`) -/

/-- `models.DetectedLanguage`. -/
structure DetectedLanguage where
  iso : Json
  label : Json

/-- `models.ToneAnalysis`. -/
structure ToneAnalysis where
  overall_tone : Json
  description : Json

/-- `models.WritingStatistics`. -/
structure WritingStatistics where
  word_count : Json
  character_count : Json
  character_count_no_spaces : Json
  paragraph_count : Json
  sentence_count : Json
  average_words_per_sentence : Json
  average_characters_per_word : Json
  vocabulary_diversity : Json
  reading_time_minutes : Json
  reading_level : Json
  readability_score : Json

/-- `models.ProofreadAnalysis`. -/
structure ProofreadAnalysis where
  corrected_text : Json
  changes : Json
  corrections_summary : Json
  tone_analysis : ToneAnalysis
  writing_statistics : WritingStatistics

/-- `models.ProofreadResult` (its `text` is `"".join(text_parts)`, a
genuine string when the join succeeds). -/
structure ProofreadResult where
  detected_language : Option DetectedLanguage
  text : String
  analysis : Option ProofreadAnalysis

/-- `proofread._parse_writing_stats`: eleven mandatory keys. -/
def parse_writing_stats (raw : Json) : Except PyErr WritingStatistics := do
  pure
    { word_count := ← jindex raw "word_count"
      character_count := ← jindex raw "character_count"
      character_count_no_spaces := ← jindex raw "character_count_no_spaces"
      paragraph_count := ← jindex raw "paragraph_count"
      sentence_count := ← jindex raw "sentence_count"
      average_words_per_sentence := ← jindex raw "average_words_per_sentence"
      average_characters_per_word := ← jindex raw "average_characters_per_word"
      vocabulary_diversity := ← jindex raw "vocabulary_diversity"
      reading_time_minutes := ← jindex raw "reading_time_minutes"
      reading_level := ← jindex raw "reading_level"
      readability_score := ← jindex raw "readability_score" }

/-- Mutable state of the `_parse_proofread_response` fold:
`detected_language`, `text_parts`, `analysis`. -/
structure PRState where
  dl : Option DetectedLanguage
  parts : List Json
  analysis : Option ProofreadAnalysis

/-- Lines 138–156 of `proofread.py`: the per-frame body of the fold (the
payload `data` is already decoded). -/
def proofreadStep (d : Json) (st : PRState) : Except PyErr PRState := do
  if ← jin "detected_language" d then
    let dl ← jindex d "detected_language"
    pure { st with dl := some ⟨← jindex dl "iso", ← jindex dl "label"⟩ }
  else if ← jin "delta" d then
    pure { st with parts := st.parts ++ [← jindex d "delta"] }
  else if ← jin "analysis" d then
    let a ← jindex d "analysis"
    let ta ← jindex a "tone_analysis"
    let ws ← jindex a "writing_statistics"
    pure
      { st with
        analysis := some
          { corrected_text := ← jindex a "corrected_text"
            changes := ← jgetD a "changes" (.arr [])
            corrections_summary := ← jindex a "corrections_summary"
            tone_analysis := ⟨← jindex ta "overall_tone", ← jindex ta "description"⟩
            writing_statistics := ← parse_writing_stats ws } }
  else pure st

/-- The `for event in events` loop of `_parse_proofread_response`: every
frame's data is decoded with `json.loads` (no handler — a decode failure
propagates), then folded with `proofreadStep`. -/
def proofreadLoop (jl : String → Option Json) :
    List SSEEvent → PRState → Except PyErr PRState
  | [], st => .ok st
  | e :: es, st =>
    match jl e.data with
    | none => .error .jsonError
    | some d => do
      let st2 ← proofreadStep d st
      proofreadLoop jl es st2

/-- Python `"".join(parts)`: every part must be a `str`. -/
def pyJoinStr (parts : List Json) : Except PyErr String := do
  let ss ← parts.mapM (fun p =>
    match p with
    | .str s => Except.ok s
    | _ => Except.error PyErr.typeError)
  pure (String.join ss)

/-- `proofread._parse_proofread_response` on raw response text. -/
def parse_proofread_response (jl : String → Option Json) (text : String) :
    Except PyErr ProofreadResult := do
  let st ← proofreadLoop jl (parse_sse_events text) ⟨none, [], none⟩
  pure ⟨st.dl, ← pyJoinStr st.parts, st.analysis⟩

/-! ### Search reducer (`search._parse_search_response`) and
`SearchClient.search_all` pagination -/

/-- `models.SearchInfo`. -/
structure SearchInfo where
  share_url : Json
  curr_batch : Json
  curr_piece : Json
  next_batch : Json
  next_piece : Json

/-- `models.DomainInfo`. -/
structure DomainInfo where
  domain : Json
  favicon_url : Json
  domain_secure : Json
  trackers : Json
  registration_date : Json
  website_speed : Json
  rule_type : Json
  description : Json

/-- The three accumulators of the `_parse_search_response` fold:
`search_html_parts`, `info`, `domain_infos`. -/
structure SearchAcc where
  parts : List Json
  info : Option SearchInfo
  domains : List DomainInfo

/-- Lines 210–221 of `search.py`: build one `DomainInfo` record. -/
def mkDomainInfo (d : Json) : Except PyErr DomainInfo := do
  pure
    { domain := ← jgetD d "domain" (.str "")
      favicon_url := (← jget d "favicon_url").getD .null
      domain_secure := (← jget d "domain_secure").getD .null
      trackers := (← jget d "trackers").getD .null
      registration_date := (← jget d "registration_date").getD .null
      website_speed := (← jget d "website_speed").getD .null
      rule_type := (← jget d "rule_type").getD .null
      description := (← jget d "description").getD .null }

/-- The `for d in raw.get("data", [])` loop of the `domain_info` branch.
Python iteration over a non-list raises (`TypeError` for scalars; for a
non-empty string or dict the loop yields strings whose `.get` raises
`AttributeError`). -/
def domainInfoFold : Json → List DomainInfo → Except PyErr (List DomainInfo)
  | .arr ds, acc =>
    ds.foldlM (fun a d => do pure (a ++ [← mkDomainInfo d])) acc
  | .str s, acc => if s.isEmpty then .ok acc else .error .attrError
  | .obj kvs, acc => if kvs.isEmpty then .ok acc else .error .attrError
  | _, _ => .error .typeError

/-- Lines 184–221 of `search.py`: the `for item in items` loop body over
the decoded JSON array carried by one SSE frame.  `jl` models
`json.loads`; the second, inner `json.loads(raw)` of a string-valued
`domain_info` payload (line 207) is *not* guarded by the `try/except`. -/
def searchItemsFold (jl : String → Option Json) :
    List Json → SearchAcc → Except PyErr SearchAcc
  | [], acc => .ok acc
  | it :: rest, acc => do
    let tag ← jgetD it "tag" (.str "")
    let payload := (← jget it "payload").getD .null
    let acc2 ←
      if jeqStr tag "search" then
        match payload with
        | .obj _ => do
          let c ← jgetD payload "content" (.str "")
          pure { acc with parts := acc.parts ++ [c] }
        | .str s => pure { acc with parts := acc.parts ++ [.str s] }
        | _ => pure acc
      else if jeqStr tag "search.info" then
        match payload with
        | .obj _ => do
          pure
            { acc with
              info := some
                { share_url := ← jgetD payload "share_url" (.str "")
                  curr_batch := ← jgetD payload "curr_batch" (.num 1)
                  curr_piece := ← jgetD payload "curr_piece" (.num 1)
                  next_batch := ← jgetD payload "next_batch" (.num (-1))
                  next_piece := ← jgetD payload "next_piece" (.num 1) } }
        | _ => pure acc
      else if jeqStr tag "domain_info" then do
        let raw ←
          match payload with
          | .str s =>
            match jl s with
            | none => Except.error PyErr.jsonError
            | some r => pure r
          | _ => pure payload
        match raw with
        | .obj _ => do
          let dv ← jgetD raw "data" (.arr [])
          pure { acc with domains := ← domainInfoFold dv acc.domains }
        | _ => pure acc
      else pure acc
    searchItemsFold jl rest acc2

/-- The `for event in events` loop of `_parse_search_response` (lines
173–221): blank-data frames are skipped; a frame whose data fails
`json.loads` is skipped by the `try/except JSONDecodeError`; a decoded
non-list is skipped; a decoded list is folded item by item. -/
def searchLoop (jl : String → Option Json) :
    List SSEEvent → SearchAcc → Except PyErr SearchAcc
  | [], acc => .ok acc
  | e :: es, acc =>
    if pyBlank e.data.data then searchLoop jl es acc
    else
      match jl e.data with
      | none => searchLoop jl es acc
      | some items =>
        match items with
        | .arr its => do
          let acc2 ← searchItemsFold jl its acc
          searchLoop jl es acc2
        | _ => searchLoop jl es acc

/-- The accumulation phase of `search._parse_search_response` on raw
response text.  The remaining lines of the function (the default
`SearchInfo` when none was seen, the `"\n"`-join of the HTML parts and
the post-hoc `_parse_search_items` scrape over it) are a pure projection
of this accumulator and are outside the scope of the claims. -/
def parse_search_response_acc (jl : String → Option Json) (text : String) :
    Except PyErr SearchAcc :=
  searchLoop jl (parse_sse_events text) ⟨[], none, []⟩

/-- Python `x > 0` on a decoded JSON value (`bool` is an `int` subclass
in Python; other types raise `TypeError`). -/
def pyGtZero : Json → Except PyErr Bool
  | .num n => .ok (decide (0 < n))
  | .bool b => .ok b
  | _ => .error .typeError

/-- The `while result.info.next_batch > 0` loop of
`SearchClient.search_all`, over an injected page-fetch function `fetch`
(per-page results of an arbitrary type `α`) and an accessor `nb` for the
page's `info.next_batch` value.  The generator is modelled as the list of
yielded pages; `fuel` bounds the number of loop iterations (the theorems
show the output is fuel-independent once the cursor chain terminates). -/
def searchAllLoop (fetch : Option Json → α) (nb : α → Json) :
    α → Nat → Except PyErr (List α)
  | _, 0 => .ok []
  | r, fuel + 1 => do
    let c ← pyGtZero (nb r)
    if c then do
      let r2 := fetch (some (nb r))
      let rest ← searchAllLoop fetch nb r2 fuel
      pure (r2 :: rest)
    else pure []

/-- `SearchClient.search_all`: fetch the first page with no batch cursor,
yield it, then follow `next_batch` cursors while strictly positive. -/
def search_all (fetch : Option Json → α) (nb : α → Json) (fuel : Nat) :
    Except PyErr (List α) := do
  let r := fetch none
  let rest ← searchAllLoop fetch nb r fuel
  pure (r :: rest)

/-! ### Specification-side definitions and theorems -/

/-- Spec-side restatement of the assistant live-stream yield policy: a
snapshot is yielded exactly when its text is non-empty and differs from
the immediately previous *yielded* snapshot (`none` = nothing yielded
yet). -/
def specAssistantYields : List String → Option String → List String
  | [], _ => []
  | t :: ts, last =>
    if t ≠ "" ∧ some t ≠ last then t :: specAssistantYields ts (some t)
    else specAssistantYields ts last

lemma promptStream_spec (ts : List String) :
    ∀ p : String, promptStreamYields ts p =
      specAssistantYields ts (if p = "" then none else some p) := by
  induction ts with
  | nil => intro p; rfl
  | cons t ts ih =>
    intro p
    have hcond : (t ≠ "" ∧ t ≠ p) ↔
        (t ≠ "" ∧ some t ≠ (if p = "" then none else some p)) := by
      by_cases hp : p = ""
      · subst hp
        simp only [if_pos rfl]
        exact ⟨fun h => ⟨h.1, by simp⟩, fun h => ⟨h.1, h.1⟩⟩
      · simp [hp]
    simp only [promptStreamYields, specAssistantYields]
    by_cases h : t ≠ "" ∧ t ≠ p
    · rw [if_pos h, if_pos (hcond.mp h)]
      have ht : (if t = "" then (none : Option String) else some t) = some t :=
        if_neg h.1
      rw [ih t, ht]
    · rw [if_neg h, if_neg (fun hc => h (hcond.mpr hc)), ih p]

/-- C5: for every sequence of assistant token-frame snapshots, the
streaming assistant variant yields a snapshot exactly when its text is
non-empty and differs from the immediately previous yielded snapshot; in
particular `["", "<p>A</p>", "<p>A</p>", "<p>AB</p>"]` yields exactly
`["<p>A</p>", "<p>AB</p>"]`. -/
theorem c5_assistant_stream_snapshot_filter :
    (∀ ts : List String, promptStreamYields ts "" = specAssistantYields ts none) ∧
    promptStreamYields ["", "<p>A</p>", "<p>A</p>", "<p>AB</p>"] "" =
      ["<p>A</p>", "<p>AB</p>"] := by
  constructor
  · intro ts
    simpa using promptStream_spec ts ""
  · decide

/-- C10: when the proprietary framer finds no frames (e.g. empty text or
text with only blank lines), `_parse_summary_response` fails with an
`IndexError` from `lines[-1]` — not a result, and not the library's
`APIError`. -/
theorem c10_summary_empty_stream_index_error :
    ∀ (jl : String → Option Json) (text : String),
      parse_kagi_stream_lines text = [] →
      parse_summary_response jl text = .error .indexError := by
  intro jl text h
  unfold parse_summary_response
  rw [h]
  rfl

/-- Witness for C10 at the empty response text (and at whitespace-only
text): the framer finds no frames and the reducer hits the
`IndexError`. -/
theorem c10_summary_empty_stream_index_error_witness :
    parse_summary_response (fun _ => none) "" = .error .indexError ∧
    parse_summary_response (fun _ => none) "\n \n" = .error .indexError :=
  ⟨c10_summary_empty_stream_index_error (fun _ => none) "" (by decide),
   c10_summary_empty_stream_index_error (fun _ => none) "\n \n" (by decide)⟩

/-- C8: Pagination of `search_all` over an injected page fetch.  First
conjunct: if the first page's `next_batch` is `2` and page 2's is `-1`,
exactly the two pages are yielded, for every fuel bound `≥ 2` (the loop
terminates).  Second conjunct: the loop requests a further page exactly
when the previous page's `next_batch` is strictly positive. -/
theorem c8_search_all_pagination :
    (∀ {α : Type} (fetch : Option Json → α) (nb : α → Json),
      nb (fetch none) = Json.num 2 →
      nb (fetch (some (Json.num 2))) = Json.num (-1) →
      ∀ fuel : Nat, 2 ≤ fuel →
        search_all fetch nb fuel = .ok [fetch none, fetch (some (Json.num 2))]) ∧
    (∀ {α : Type} (fetch : Option Json → α) (nb : α → Json) (r : α) (n : Int)
        (fuel : Nat),
      nb r = Json.num n →
      searchAllLoop fetch nb r (fuel + 1) =
        if 0 < n then
          (searchAllLoop fetch nb (fetch (some (Json.num n))) fuel).map
            (fun rest => fetch (some (Json.num n)) :: rest)
        else .ok []) := by
  have step : ∀ {α : Type} (fetch : Option Json → α) (nb : α → Json) (r : α)
      (fuel : Nat),
      searchAllLoop fetch nb r (fuel + 1) =
        (pyGtZero (nb r)).bind (fun c =>
          if c = true then
            (searchAllLoop fetch nb (fetch (some (nb r))) fuel).map
              (fun rest => fetch (some (nb r)) :: rest)
          else .ok []) := fun _ _ _ _ => rfl
  constructor
  · intro α fetch nb h1 h2 fuel hfuel
    obtain ⟨f, rfl⟩ : ∃ f, fuel = f + 2 := ⟨fuel - 2, by omega⟩
    show (searchAllLoop fetch nb (fetch none) (f + 2)).bind _ = _
    rw [show f + 2 = (f + 1) + 1 from rfl]
    rw [step, h1]
    rw [step, h2]
    rfl
  · intro α fetch nb r n fuel h
    rw [step, h]
    by_cases hn : 0 < n
    · rw [if_pos hn]
      rw [show pyGtZero (Json.num n) = .ok true from by simp [pyGtZero, hn]]
      rfl
    · rw [if_neg hn]
      rw [show pyGtZero (Json.num n) = .ok false from by simp [pyGtZero, hn]]
      rfl

/-- Demonstration page-fetch for the C8 witness: each page is represented
by its `next_batch` value (`nb = id`): the first page carries `2`, every
fetched page carries `-1`. -/
def demoFetch : Option Json → Json
  | none => .num 2
  | some _ => .num (-1)

/-- Witness for C8: with the demonstration fetch the pagination yields
exactly the two pages at every sufficient fuel bound shown here. -/
theorem c8_search_all_pagination_witness :
    search_all demoFetch id 2 = .ok [.num 2, .num (-1)] ∧
    search_all demoFetch id 99 = .ok [.num 2, .num (-1)] :=
  ⟨c8_search_all_pagination.1 demoFetch id rfl rfl 2 (by omega),
   c8_search_all_pagination.1 demoFetch id rfl rfl 99 (by omega)⟩

/-! ### Segment characterization of the SSE framer -/

/-- The stripped `data:` contributions of the lines of one segment, in
line order. -/
def dataContribs (seg : List (List Char)) : List (List Char) :=
  seg.filterMap (fun l =>
    if "data:".data.isPrefixOf l then some (pyStrip (l.drop 5)) else none)

/-- The flush of one blank-line-delimited segment of lines, processed
from reset accumulators. -/
def segFlush (seg : List (List Char)) : Option SSEEvent :=
  flushAcc (seg.foldl stepLine emptyAcc)

/-- The blank-line-delimited segments of the input lines; the last
segment is the (never flushed) one after the final blank line, or the
whole input when there is no blank line. -/
def sseSegs (text : String) : List (List (List Char)) :=
  (pyLines text).splitOnP (fun l => l.isEmpty)

/-- Spec-side fold over segments, with the accumulator carried into the
first segment. -/
def segsToEvents (acc : SSEAcc) : List (List (List Char)) → List SSEEvent
  | [] => []
  | [_] => []
  | s :: s2 :: rest =>
    (flushAcc (s.foldl stepLine acc)).toList ++ segsToEvents emptyAcc (s2 :: rest)

lemma sseLoop_eq_segsToEvents (ls : List (List Char)) :
    ∀ acc, sseLoop ls acc = segsToEvents acc (ls.splitOnP (fun l => l.isEmpty)) := by
  induction ls with
  | nil =>
    intro acc
    rw [List.splitOnP_nil]
    rfl
  | cons l ls ih =>
    intro acc
    rw [List.splitOnP_cons]
    by_cases hl : l = []
    · subst hl
      rw [if_pos (by rfl)]
      obtain ⟨s2, rest, hsp⟩ := List.exists_cons_of_ne_nil (List.splitOnP_ne_nil _ ls)
      rw [hsp]
      have lhs : sseLoop ([] :: ls) acc = (flushAcc acc).toList ++ sseLoop ls emptyAcc := by
        simp [sseLoop]
      rw [lhs, ih emptyAcc, hsp]
      rfl
    · have hpl : (fun l : List Char => l.isEmpty) l = false := by
        cases l with
        | nil => exact absurd rfl hl
        | cons a t => rfl
      rw [if_neg (by simp [hpl])]
      obtain ⟨g, gs, hsp⟩ := List.exists_cons_of_ne_nil (List.splitOnP_ne_nil _ ls)
      rw [hsp, List.modifyHead_cons]
      have lhs : sseLoop (l :: ls) acc = sseLoop ls (stepLine acc l) := by
        simp [sseLoop, hl]
      rw [lhs, ih (stepLine acc l), hsp]
      cases gs with
      | nil => rfl
      | cons s2 r2 => rfl

lemma segsToEvents_filterMap :
    ∀ segs : List (List (List Char)),
      segsToEvents emptyAcc segs = segs.dropLast.filterMap segFlush
  | [] => rfl
  | [_] => rfl
  | s :: s2 :: rest => by
    show (flushAcc (s.foldl stepLine emptyAcc)).toList ++
        segsToEvents emptyAcc (s2 :: rest) = _
    rw [segsToEvents_filterMap (s2 :: rest)]
    show (segFlush s).toList ++ _ = ((s :: s2 :: rest).dropLast).filterMap segFlush
    rw [show (s :: s2 :: rest).dropLast = s :: (s2 :: rest).dropLast from rfl]
    rw [List.filterMap_cons]
    cases h : segFlush s <;> simp [h]

/-- The SSE framer, characterized segment-wise: the events are the
flushes of the blank-line-delimited segments, the final (unflushed)
segment excluded. -/
lemma parse_sse_events_eq_segs (text : String) :
    parse_sse_events text = (sseSegs text).dropLast.filterMap segFlush := by
  unfold parse_sse_events sseSegs
  rw [sseLoop_eq_segsToEvents, segsToEvents_filterMap]

/-- A line with prefix `a :: as` cannot have a prefix starting with a
different character. -/
lemma prefix_head_ne {a b : Char} {as bs l : List Char} (hab : (b == a) = false)
    (h : (a :: as).isPrefixOf l = true) : (b :: bs).isPrefixOf l = false := by
  cases l with
  | nil => rfl
  | cons c cs =>
    have h1 : ((a == c) && as.isPrefixOf cs) = true := h
    rw [Bool.and_eq_true] at h1
    have hac : a = c := eq_of_beq h1.1
    subst hac
    show ((b == a) && bs.isPrefixOf cs) = false
    rw [hab, Bool.false_and]

lemma not_data_of_event {l : List Char} (h : "event:".data.isPrefixOf l) :
    "data:".data.isPrefixOf l = false := by
  rw [show "data:".data = 'd' :: "ata:".data from rfl]
  rw [show "event:".data = 'e' :: "vent:".data from rfl] at h
  exact prefix_head_ne (by decide) h

lemma not_id_of_event {l : List Char} (h : "event:".data.isPrefixOf l) :
    "id:".data.isPrefixOf l = false := by
  rw [show "id:".data = 'i' :: "d:".data from rfl]
  rw [show "event:".data = 'e' :: "vent:".data from rfl] at h
  exact prefix_head_ne (by decide) h

lemma not_id_of_data {l : List Char} (h : "data:".data.isPrefixOf l) :
    "id:".data.isPrefixOf l = false := by
  rw [show "id:".data = 'i' :: "d:".data from rfl]
  rw [show "data:".data = 'd' :: "ata:".data from rfl] at h
  exact prefix_head_ne (by decide) h

lemma not_event_of_data {l : List Char} (h : "data:".data.isPrefixOf l) :
    "event:".data.isPrefixOf l = false := by
  rw [show "event:".data = 'e' :: "vent:".data from rfl]
  rw [show "data:".data = 'd' :: "ata:".data from rfl] at h
  exact prefix_head_ne (by decide) h

lemma not_event_of_id {l : List Char} (h : "id:".data.isPrefixOf l) :
    "event:".data.isPrefixOf l = false := by
  rw [show "event:".data = 'e' :: "vent:".data from rfl]
  rw [show "id:".data = 'i' :: "d:".data from rfl] at h
  exact prefix_head_ne (by decide) h

lemma not_data_of_id' {l : List Char} (h : "id:".data.isPrefixOf l) :
    "data:".data.isPrefixOf l = false := by
  rw [show "data:".data = 'd' :: "ata:".data from rfl]
  rw [show "id:".data = 'i' :: "d:".data from rfl] at h
  exact prefix_head_ne (by decide) h

lemma stepLine_data (acc : SSEAcc) (l : List Char) :
    (stepLine acc l).data = acc.data ++
      (if "data:".data.isPrefixOf l then [pyStrip (l.drop 5)] else []) := by
  by_cases h1 : "event:".data.isPrefixOf l
  · simp [stepLine, h1, not_data_of_event h1]
  · by_cases h2 : "data:".data.isPrefixOf l
    · simp [stepLine, h1, h2]
    · by_cases h3 : "id:".data.isPrefixOf l
      · simp [stepLine, h1, h2, h3]
      · simp [stepLine, h1, h2, h3]

lemma foldl_stepLine_data (seg : List (List Char)) :
    ∀ acc : SSEAcc, (seg.foldl stepLine acc).data = acc.data ++ dataContribs seg := by
  induction seg with
  | nil => intro acc; simp [dataContribs]
  | cons l t ih =>
    intro acc
    rw [List.foldl_cons, ih, stepLine_data]
    simp only [dataContribs, List.filterMap_cons]
    by_cases h : "data:".data.isPrefixOf l
    · simp [h, List.append_assoc]
    · simp [h]

lemma dataContribs_eq_nil_iff (seg : List (List Char)) :
    dataContribs seg = [] ↔ ∀ l ∈ seg, "data:".data.isPrefixOf l = false := by
  simp only [dataContribs]
  rw [List.filterMap_eq_nil_iff]
  constructor
  · intro h l hl
    have h2 := h l hl
    by_cases hp : "data:".data.isPrefixOf l
    · rw [if_pos hp] at h2
      cases h2
    · cases hb : "data:".data.isPrefixOf l
      · rfl
      · exact absurd hb hp
  · intro h l hl
    rw [if_neg (by simp [h l hl])]

lemma segFlush_eq (seg : List (List Char)) :
    segFlush seg =
      if dataContribs seg = [] then none
      else
        some ⟨(seg.foldl stepLine emptyAcc).event.map String.mk,
          String.mk (joinNl (dataContribs seg)),
          (seg.foldl stepLine emptyAcc).id.map String.mk⟩ := by
  unfold segFlush flushAcc
  have hd : (seg.foldl stepLine emptyAcc).data = dataContribs seg := by
    simpa using foldl_stepLine_data seg emptyAcc
  rw [hd]

/-- C7: an SSE frame is emitted exactly at each blank line at which at
least one `data:` line has been accumulated since the previous blank
line (or the start of input), and the accumulation after the final blank
line is never emitted: the events are exactly the flushes of the
blank-line-delimited segments without the last segment, and a segment's
flush exists iff it contains a `data:` line. -/
theorem c7_sse_emission_policy :
    ∀ text : String,
      parse_sse_events text = (sseSegs text).dropLast.filterMap segFlush ∧
      ∀ seg : List (List Char),
        (segFlush seg).isSome ↔ ∃ l ∈ seg, "data:".data.isPrefixOf l := by
  intro text
  refine ⟨parse_sse_events_eq_segs text, fun seg => ?_⟩
  rw [segFlush_eq]
  by_cases h : dataContribs seg = []
  · rw [if_pos h]
    have hall := (dataContribs_eq_nil_iff seg).mp h
    constructor
    · intro h2
      exact absurd h2 (by simp)
    · rintro ⟨l, hl, hp⟩
      exact absurd hp (by simp [hall l hl])
  · rw [if_neg h]
    constructor
    · intro _
      by_contra hno
      push_neg at hno
      exact h ((dataContribs_eq_nil_iff seg).mpr (fun l hl => by
        cases hb : "data:".data.isPrefixOf l
        · rfl
        · exact absurd hb (hno l hl)))
    · intro _
      simp

lemma filterMap_segFlush_data (segs : List (List (List Char))) :
    (segs.filterMap segFlush).map (fun e => e.data) =
      (segs.filter (fun seg => !(dataContribs seg).isEmpty)).map
        (fun seg => String.mk (joinNl (dataContribs seg))) := by
  induction segs with
  | nil => rfl
  | cons s t ih =>
    rw [List.filterMap_cons, List.filter_cons]
    by_cases h : dataContribs s = []
    · rw [segFlush_eq, if_pos h]
      simp [h, ih]
    · rw [segFlush_eq, if_neg h]
      have hne : ((dataContribs s).isEmpty = false) := by
        cases hc : dataContribs s with
        | nil => exact absurd hc h
        | cons a b => rfl
      simp [hne, ih]

/-- C4 (amended): each `data:` line contributes its content with *all*
leading and trailing whitespace stripped (Python `str.strip()`), and an
emitted frame's data field equals those contributions joined by `"\n"`
in line order. -/
theorem c4_sse_data_strip_amended :
    ∀ text : String,
      (parse_sse_events text).map (fun e => e.data) =
        ((sseSegs text).dropLast.filter (fun seg => !(dataContribs seg).isEmpty)).map
          (fun seg => String.mk (joinNl (dataContribs seg))) := by
  intro text
  rw [parse_sse_events_eq_segs, filterMap_segFlush_data]

/-- Python `line[len("data:"):]` with exactly one leading space removed
and nothing else — the data-line handling the claim asserts. -/
def dropOneSpace (l : List Char) : List Char :=
  match l with
  | ' ' :: t => t
  | _ => l

/-- The claim-side SSE framer variant whose `data:` lines strip exactly
one leading space (everything else as in the code). -/
def stepLineOneSpace (acc : SSEAcc) (l : List Char) : SSEAcc :=
  if "event:".data.isPrefixOf l then { acc with event := some (pyStrip (l.drop 6)) }
  else if "data:".data.isPrefixOf l then { acc with data := acc.data ++ [dropOneSpace (l.drop 5)] }
  else if "id:".data.isPrefixOf l then { acc with id := some (pyStrip (l.drop 3)) }
  else acc

/-- The loop of the claim-side one-leading-space framer variant. -/
def sseLoopOneSpace : List (List Char) → SSEAcc → List SSEEvent
  | [], _ => []
  | l :: ls, acc =>
    if l = [] then (flushAcc acc).toList ++ sseLoopOneSpace ls emptyAcc
    else sseLoopOneSpace ls (stepLineOneSpace acc l)

/-- The claim-side framer: `parse_sse_events` as C4 describes it. -/
def parse_sse_events_one_space (text : String) : List SSEEvent :=
  sseLoopOneSpace (pyLines text) emptyAcc

/-- Counterexample to C4 as stated: on `"data:  x \n\n"` the code strips
all surrounding whitespace of the contribution (`.strip()`), yielding
`"x"`, while the one-leading-space reading of the claim yields `" x "`. -/
theorem c4_counterexample_full_strip :
    parse_sse_events "data:  x \n\n" = [⟨none, "x", none⟩] ∧
    parse_sse_events_one_space "data:  x \n\n" = [⟨none, " x ", none⟩] ∧
    ("x" : String) ≠ " x " := by
  refine ⟨by decide, by decide, by decide⟩

/-! ### SSE re-serialization (claim C9) -/

lemma bool_eq_false_of_not {b : Bool} (h : ¬b = true) : b = false := by
  cases b
  · rfl
  · exact absurd rfl h

lemma splitOnP_chunk {α : Type} {p : α → Bool} :
    ∀ l : List α, ∀ g ∈ l.splitOnP p, ∀ a ∈ g, p a = false ∧ a ∈ l := by
  intro l
  induction l with
  | nil =>
    intro g hg a ha
    rw [List.splitOnP_nil] at hg
    simp only [List.mem_singleton] at hg
    subst hg
    simp at ha
  | cons x xs ih =>
    intro g hg a ha
    rw [List.splitOnP_cons] at hg
    by_cases hx : p x
    · rw [if_pos hx] at hg
      rcases List.mem_cons.mp hg with rfl | hg2
      · simp at ha
      · obtain ⟨hpa, hmem⟩ := ih g hg2 a ha
        exact ⟨hpa, List.mem_cons_of_mem _ hmem⟩
    · rw [if_neg hx] at hg
      obtain ⟨h, t, hs⟩ := List.exists_cons_of_ne_nil (List.splitOnP_ne_nil p xs)
      rw [hs, List.modifyHead_cons] at hg
      rcases List.mem_cons.mp hg with rfl | hg2
      · rcases List.mem_cons.mp ha with rfl | ha2
        · exact ⟨bool_eq_false_of_not hx, List.mem_cons_self _ _⟩
        · obtain ⟨hpa, hmem⟩ := ih h (by rw [hs]; exact List.mem_cons_self h t) a ha2
          exact ⟨hpa, List.mem_cons_of_mem _ hmem⟩
      · obtain ⟨hpa, hmem⟩ :=
          ih g (by rw [hs]; exact List.mem_cons_of_mem h hg2) a ha
        exact ⟨hpa, List.mem_cons_of_mem _ hmem⟩

lemma length_dropWhile_le' (p : α → Bool) (l : List α) :
    (l.dropWhile p).length ≤ l.length :=
  (List.dropWhile_suffix p).sublist.length_le

lemma dropWhile_pyStrip (l : List Char) :
    (pyStrip l).dropWhile pyWs = pyStrip l := by
  unfold pyStrip
  have h1 : List.dropWhile pyWs (l.dropWhile pyWs) = l.dropWhile pyWs :=
    List.dropWhile_idempotent _ _
  obtain ⟨t, ht⟩ := List.rdropWhile_prefix pyWs (l.dropWhile pyWs)
  cases hz : (l.dropWhile pyWs).rdropWhile pyWs with
  | nil => rfl
  | cons a as =>
    rw [hz] at ht
    have hpa : pyWs a = false := by
      cases hpw : pyWs a
      · rfl
      · exfalso
        rw [← ht, show ((a :: as) ++ t) = a :: (as ++ t) from rfl,
          List.dropWhile_cons_of_pos hpw] at h1
        have hlen := congrArg List.length h1
        have hle := length_dropWhile_le' pyWs (as ++ t)
        simp only [List.length_cons] at hlen
        omega
    rw [List.dropWhile_cons_of_neg (by simp [hpa])]

lemma rdropWhile_pyStrip (l : List Char) :
    (pyStrip l).rdropWhile pyWs = pyStrip l := by
  unfold pyStrip
  exact List.rdropWhile_idempotent _ _

lemma pyStrip_idem (l : List Char) : pyStrip (pyStrip l) = pyStrip l := by
  have h : pyStrip (pyStrip l) = ((pyStrip l).dropWhile pyWs).rdropWhile pyWs := rfl
  rw [h, dropWhile_pyStrip, rdropWhile_pyStrip]

lemma pyStrip_sublist (l : List Char) : (pyStrip l).Sublist l :=
  (( List.rdropWhile_prefix pyWs (l.dropWhile pyWs)).sublist).trans
    (List.dropWhile_suffix pyWs).sublist

lemma pyStrip_cons_space (x : List Char) : pyStrip (' ' :: x) = pyStrip x := by
  unfold pyStrip
  rw [List.dropWhile_cons_of_pos (by decide)]

lemma stepLine_event (acc : SSEAcc) (l : List Char) :
    (stepLine acc l).event =
      if "event:".data.isPrefixOf l then some (pyStrip (l.drop 6)) else acc.event := by
  by_cases h1 : "event:".data.isPrefixOf l
  · simp [stepLine, h1]
  · by_cases h2 : "data:".data.isPrefixOf l
    · simp [stepLine, h1, h2]
    · by_cases h3 : "id:".data.isPrefixOf l
      · simp [stepLine, h1, h2, h3]
      · simp [stepLine, h1, h2, h3]

lemma stepLine_id (acc : SSEAcc) (l : List Char) :
    (stepLine acc l).id =
      if "id:".data.isPrefixOf l then some (pyStrip (l.drop 3)) else acc.id := by
  by_cases h1 : "event:".data.isPrefixOf l
  · simp [stepLine, h1, not_id_of_event h1]
  · by_cases h2 : "data:".data.isPrefixOf l
    · simp [stepLine, h1, h2, not_id_of_data h2]
    · by_cases h3 : "id:".data.isPrefixOf l
      · simp [stepLine, h1, h2, h3]
      · simp [stepLine, h1, h2, h3]

lemma foldl_stepLine_event (seg : List (List Char)) :
    ∀ acc : SSEAcc, (seg.foldl stepLine acc).event = acc.event ∨
      ∃ l ∈ seg, (seg.foldl stepLine acc).event = some (pyStrip (l.drop 6)) := by
  induction seg with
  | nil => intro acc; exact Or.inl rfl
  | cons l t ih =>
    intro acc
    rw [List.foldl_cons]
    rcases ih (stepLine acc l) with h | ⟨l2, hl2, h⟩
    · rw [h, stepLine_event]
      by_cases hp : "event:".data.isPrefixOf l
      · exact Or.inr ⟨l, List.mem_cons_self _ _, by rw [if_pos hp]⟩
      · rw [if_neg hp]
        exact Or.inl rfl
    · exact Or.inr ⟨l2, List.mem_cons_of_mem _ hl2, h⟩

lemma foldl_stepLine_id (seg : List (List Char)) :
    ∀ acc : SSEAcc, (seg.foldl stepLine acc).id = acc.id ∨
      ∃ l ∈ seg, (seg.foldl stepLine acc).id = some (pyStrip (l.drop 3)) := by
  induction seg with
  | nil => intro acc; exact Or.inl rfl
  | cons l t ih =>
    intro acc
    rw [List.foldl_cons]
    rcases ih (stepLine acc l) with h | ⟨l2, hl2, h⟩
    · rw [h, stepLine_id]
      by_cases hp : "id:".data.isPrefixOf l
      · exact Or.inr ⟨l, List.mem_cons_self _ _, by rw [if_pos hp]⟩
      · rw [if_neg hp]
        exact Or.inl rfl
    · exact Or.inr ⟨l2, List.mem_cons_of_mem _ hl2, h⟩

/-- Every field of an emitted SSE frame is built from stripped,
newline-free pieces: the event and id values are stripped and
newline-free, and the data is the `"\n"`-join of a non-empty list of
stripped newline-free contributions. -/
lemma parse_sse_events_shape {text : String} {e : SSEEvent}
    (he : e ∈ parse_sse_events text) :
    (∀ v, e.event = some v → pyStrip v.data = v.data ∧ '\n' ∉ v.data) ∧
    (∀ v, e.id = some v → pyStrip v.data = v.data ∧ '\n' ∉ v.data) ∧
    ∃ parts, parts ≠ [] ∧ (∀ q ∈ parts, pyStrip q = q ∧ '\n' ∉ q) ∧
      e.data = String.mk (joinNl parts) := by
  rw [parse_sse_events_eq_segs] at he
  obtain ⟨seg, hseg, hflush⟩ := List.mem_filterMap.mp he
  have hsegmem : seg ∈ sseSegs text := List.mem_of_mem_dropLast hseg
  have hlines : ∀ l ∈ seg, '\n' ∉ l := by
    intro l hl hc
    have hmem : l ∈ (pyLines text) :=
      (splitOnP_chunk (p := fun l : List Char => l.isEmpty) (pyLines text) seg
        hsegmem l hl).2
    have hml : l ∈ text.data.splitOnP (fun c => c == '\n') := hmem
    have := (splitOnP_chunk (p := fun c : Char => c == '\n') text.data l hml '\n' hc).1
    simp at this
  have hstripline : ∀ l ∈ seg, ∀ n : Nat,
      pyStrip (pyStrip (l.drop n)) = pyStrip (l.drop n) ∧ '\n' ∉ pyStrip (l.drop n) := by
    intro l hl n
    refine ⟨pyStrip_idem _, fun hc => ?_⟩
    exact hlines l hl ((List.mem_of_mem_drop ((pyStrip_sublist _).subset hc)))
  rw [segFlush_eq] at hflush
  by_cases hd : dataContribs seg = []
  · rw [if_pos hd] at hflush
    cases hflush
  · rw [if_neg hd] at hflush
    injection hflush with hflush
    refine ⟨?_, ?_, dataContribs seg, hd, ?_, ?_⟩
    · intro v hv
      rw [← hflush] at hv
      have hv2 : (seg.foldl stepLine emptyAcc).event.map String.mk = some v := hv
      rcases foldl_stepLine_event seg emptyAcc with hnone | ⟨l, hl, hsome⟩
      · rw [hnone] at hv2
        simp [emptyAcc] at hv2
      · rw [hsome] at hv2
        have hv3 : String.mk (pyStrip (l.drop 6)) = v := by
          simpa using hv2
        have hvdata : v.data = pyStrip (l.drop 6) := by
          rw [← hv3]
        rw [hvdata]
        exact hstripline l hl 6
    · intro v hv
      rw [← hflush] at hv
      have hv2 : (seg.foldl stepLine emptyAcc).id.map String.mk = some v := hv
      rcases foldl_stepLine_id seg emptyAcc with hnone | ⟨l, hl, hsome⟩
      · rw [hnone] at hv2
        simp [emptyAcc] at hv2
      · rw [hsome] at hv2
        have hv3 : String.mk (pyStrip (l.drop 3)) = v := by
          simpa using hv2
        have hvdata : v.data = pyStrip (l.drop 3) := by
          rw [← hv3]
        rw [hvdata]
        exact hstripline l hl 3
    · intro q hq
      obtain ⟨l, hl, hsome⟩ := List.mem_filterMap.mp hq
      by_cases hp : "data:".data.isPrefixOf l
      · rw [if_pos hp] at hsome
        injection hsome with hsome
        rw [← hsome]
        exact hstripline l hl 5
      · rw [if_neg hp] at hsome
        cases hsome
    · rw [← hflush]

/-- The `event:`/`data:`/`id:` lines of the re-serialization of one SSE
frame (one `event:` line when the event is present, one `data:` line per
newline-separated piece of the data, one `id:` line when the id is
present), each value separated from its prefix by one space. -/
def serContentLines (e : SSEEvent) : List (List Char) :=
  (match e.event with | some v => ["event: ".data ++ v.data] | none => []) ++
  (pyLines e.data).map (fun part => "data: ".data ++ part) ++
  (match e.id with | some v => ["id: ".data ++ v.data] | none => [])

/-- Re-serialization of one SSE frame back into wire text, with the
terminating blank line. -/
def serializeSSE (e : SSEEvent) : String :=
  String.mk (joinNl (serContentLines e ++ [[]]))

lemma stepLine_ev_line (acc : SSEAcc) (v : List Char) :
    stepLine acc ("event: ".data ++ v) = { acc with event := some (pyStrip v) } := by
  have hp : "event:".data.isPrefixOf ("event: ".data ++ v) = true := by
    rw [show "event: ".data ++ v = "event:".data ++ (' ' :: v) from rfl]
    exact List.isPrefixOf_iff_prefix.mpr (List.prefix_append _ _)
  rw [show stepLine acc ("event: ".data ++ v) =
    { acc with event := some (pyStrip (("event: ".data ++ v).drop 6)) } from by
      simp [stepLine, hp]]
  rw [show ("event: ".data ++ v).drop 6 = ' ' :: v from rfl, pyStrip_cons_space]

lemma stepLine_data_line (acc : SSEAcc) (v : List Char) :
    stepLine acc ("data: ".data ++ v) = { acc with data := acc.data ++ [pyStrip v] } := by
  have hp : "data:".data.isPrefixOf ("data: ".data ++ v) = true := by
    rw [show "data: ".data ++ v = "data:".data ++ (' ' :: v) from rfl]
    exact List.isPrefixOf_iff_prefix.mpr (List.prefix_append _ _)
  have hne : "event:".data.isPrefixOf ("data: ".data ++ v) = false :=
    not_event_of_data hp
  rw [show stepLine acc ("data: ".data ++ v) =
    { acc with data := acc.data ++ [pyStrip (("data: ".data ++ v).drop 5)] } from by
      simp [stepLine, hp, hne]]
  rw [show ("data: ".data ++ v).drop 5 = ' ' :: v from rfl, pyStrip_cons_space]

lemma stepLine_id_line (acc : SSEAcc) (v : List Char) :
    stepLine acc ("id: ".data ++ v) = { acc with id := some (pyStrip v) } := by
  have hp : "id:".data.isPrefixOf ("id: ".data ++ v) = true := by
    rw [show "id: ".data ++ v = "id:".data ++ (' ' :: v) from rfl]
    exact List.isPrefixOf_iff_prefix.mpr (List.prefix_append _ _)
  have hne1 : "event:".data.isPrefixOf ("id: ".data ++ v) = false :=
    not_event_of_id hp
  have hne2 : "data:".data.isPrefixOf ("id: ".data ++ v) = false :=
    not_data_of_id' hp
  rw [show stepLine acc ("id: ".data ++ v) =
    { acc with id := some (pyStrip (("id: ".data ++ v).drop 3)) } from by
      simp [stepLine, hp, hne1, hne2]]
  rw [show ("id: ".data ++ v).drop 3 = ' ' :: v from rfl, pyStrip_cons_space]

lemma sseLoop_content_blank (ls : List (List Char)) :
    ∀ acc : SSEAcc, (∀ l ∈ ls, l ≠ []) →
      sseLoop (ls ++ [[]]) acc = (flushAcc (ls.foldl stepLine acc)).toList := by
  induction ls with
  | nil =>
    intro acc _
    simp [sseLoop]
  | cons l t ih =>
    intro acc h
    have hl : l ≠ [] := h l (List.mem_cons_self _ _)
    show sseLoop (l :: (t ++ [[]])) acc = _
    rw [show sseLoop (l :: (t ++ [[]])) acc = sseLoop (t ++ [[]]) (stepLine acc l) from by
      simp [sseLoop, hl]]
    rw [ih (stepLine acc l) (fun x hx => h x (List.mem_cons_of_mem _ hx)),
      List.foldl_cons]

lemma foldl_data_lines (parts : List (List Char)) :
    ∀ acc : SSEAcc,
      (parts.map (fun q => "data: ".data ++ q)).foldl stepLine acc =
        { acc with data := acc.data ++ parts.map pyStrip } := by
  induction parts with
  | nil => intro acc; simp
  | cons q t ih =>
    intro acc
    rw [List.map_cons, List.foldl_cons, stepLine_data_line, ih]
    simp

/-- Re-framing the serialization of a frame with the shape produced by
the framer yields exactly that frame again. -/
lemma parse_serializeSSE (e : SSEEvent)
    (hev : ∀ v, e.event = some v → pyStrip v.data = v.data ∧ '\n' ∉ v.data)
    (hid : ∀ v, e.id = some v → pyStrip v.data = v.data ∧ '\n' ∉ v.data)
    (parts : List (List Char)) (hne : parts ≠ [])
    (hq : ∀ q ∈ parts, pyStrip q = q ∧ '\n' ∉ q)
    (hdata : e.data = String.mk (joinNl parts)) :
    parse_sse_events (serializeSSE e) = [e] := by
  have hsplit : pyLines e.data = parts := by
    rw [hdata]
    show (joinNl parts).splitOn '\n' = parts
    exact List.splitOn_intercalate parts '\n' (fun q hq2 => (hq q hq2).2) hne
  have hnn : ∀ l ∈ serContentLines e ++ [[]], '\n' ∉ l := by
    intro l hl
    rcases List.mem_append.mp hl with hl2 | hl2
    · unfold serContentLines at hl2
      rcases List.mem_append.mp hl2 with hl3 | hl3
      · rcases List.mem_append.mp hl3 with hl4 | hl4
        · cases hevv : e.event with
          | none => rw [hevv] at hl4; simp at hl4
          | some v =>
            rw [hevv] at hl4
            simp only [List.mem_singleton] at hl4
            subst hl4
            intro hc
            rcases List.mem_append.mp hc with hc2 | hc2
            · revert hc2; decide
            · exact (hev v hevv).2 hc2
        · rw [hsplit] at hl4
          obtain ⟨q, hqm, rfl⟩ := List.mem_map.mp hl4
          intro hc
          rcases List.mem_append.mp hc with hc2 | hc2
          · revert hc2; decide
          · exact (hq q hqm).2 hc2
      · cases hidv : e.id with
        | none => rw [hidv] at hl3; simp at hl3
        | some v =>
          rw [hidv] at hl3
          simp only [List.mem_singleton] at hl3
          subst hl3
          intro hc
          rcases List.mem_append.mp hc with hc2 | hc2
          · revert hc2; decide
          · exact (hid v hidv).2 hc2
    · simp only [List.mem_singleton] at hl2
      subst hl2
      simp
  have hparse0 : pyLines (serializeSSE e) = serContentLines e ++ [[]] := by
    show (joinNl (serContentLines e ++ [[]])).splitOn '\n' = _
    exact List.splitOn_intercalate _ '\n' hnn (by simp)
  have hcne : ∀ l ∈ serContentLines e, l ≠ [] := by
    intro l hl
    unfold serContentLines at hl
    rcases List.mem_append.mp hl with hl3 | hl3
    · rcases List.mem_append.mp hl3 with hl4 | hl4
      · cases hevv : e.event with
        | none => rw [hevv] at hl4; simp at hl4
        | some v =>
          rw [hevv] at hl4
          simp only [List.mem_singleton] at hl4
          subst hl4
          simp [show "event: ".data = 'e' :: "vent: ".data from rfl]
      · obtain ⟨q, _, rfl⟩ := List.mem_map.mp hl4
        simp [show "data: ".data = 'd' :: "ata: ".data from rfl]
    · cases hidv : e.id with
      | none => rw [hidv] at hl3; simp at hl3
      | some v =>
        rw [hidv] at hl3
        simp only [List.mem_singleton] at hl3
        subst hl3
        simp [show "id: ".data = 'i' :: "d: ".data from rfl]
  have hmapstrip : parts.map pyStrip = parts := by
    have : ∀ q ∈ parts, pyStrip q = q := fun q hq2 => (hq q hq2).1
    calc parts.map pyStrip = parts.map id := List.map_congr_left this
    _ = parts := List.map_id parts
  have hfold : (serContentLines e).foldl stepLine emptyAcc =
      ⟨e.event.map String.data, parts, e.id.map String.data⟩ := by
    unfold serContentLines
    rw [hsplit, List.foldl_append, List.foldl_append, foldl_data_lines]
    cases hevv : e.event with
    | none =>
      cases hidv : e.id with
      | none =>
        simp only [List.foldl_nil]
        simp [hmapstrip, emptyAcc]
      | some v =>
        have hvs : pyStrip v.data = v.data := (hid v hidv).1
        simp only [List.foldl_cons, List.foldl_nil]
        rw [stepLine_id_line, hvs]
        simp [hmapstrip, emptyAcc]
    | some v =>
      have hvs : pyStrip v.data = v.data := (hev v hevv).1
      cases hidv : e.id with
      | none =>
        simp only [List.foldl_cons, List.foldl_nil]
        rw [stepLine_ev_line, hvs]
        simp [hmapstrip, emptyAcc]
      | some w =>
        have hws : pyStrip w.data = w.data := (hid w hidv).1
        simp only [List.foldl_cons, List.foldl_nil]
        rw [stepLine_ev_line, hvs, stepLine_id_line, hws]
        simp [hmapstrip, emptyAcc]
  unfold parse_sse_events
  rw [hparse0, sseLoop_content_blank _ emptyAcc hcne, hfold]
  unfold flushAcc
  rw [if_neg (by simpa using hne)]
  show [(⟨(e.event.map String.data).map String.mk, String.mk (joinNl parts),
    (e.id.map String.data).map String.mk⟩ : SSEEvent)] = [e]
  rw [← hdata]
  cases e with
  | mk ev da i =>
    cases ev <;> cases i <;> rfl

/-- C9: SSE framing is idempotent: re-serializing any emitted frame back
into `event:`/`data:`/`id:` lines with a terminating blank line and
re-framing that text reproduces exactly that frame. -/
theorem c9_sse_idempotent (text : String) (e : SSEEvent)
    (he : e ∈ parse_sse_events text) :
    parse_sse_events (serializeSSE e) = [e] := by
  obtain ⟨hev, hid, parts, hne, hq, hdata⟩ := parse_sse_events_shape he
  exact parse_serializeSSE e hev hid parts hne hq hdata

/-- Witness for C9: a concrete frame emitted from concrete SSE text
round-trips. -/
theorem c9_sse_idempotent_witness :
    parse_sse_events (serializeSSE ⟨some "m", "hi", some "7"⟩) =
      [⟨some "m", "hi", some "7"⟩] :=
  c9_sse_idempotent "event: m\nid: 7\ndata: hi\n\n" ⟨some "m", "hi", some "7"⟩
    (by decide)

/-! ### Characterization of the proprietary framer (claim C3) -/

/-- A line that does not match the tag pattern. -/
def notTag (l : List Char) : Bool := (tagSplit l).isNone

lemma pyWs_not_tagStart {c : Char} (h : pyWs c = true) : isTagStart c = false := by
  simp only [pyWs, Bool.or_eq_true, decide_eq_true_eq] at h
  rcases h with ((((h | h) | h) | h) | h) | h <;> subst h <;> decide

lemma tagSplit_blank {l : List Char} (h : pyBlank l = true) : tagSplit l = none := by
  cases l with
  | nil => rfl
  | cons c cs =>
    have hc : pyWs c = true := by
      simp only [pyBlank, List.all_cons, Bool.and_eq_true] at h
      exact h.1
    simp [tagSplit, pyWs_not_tagStart hc]

lemma filter_idem (p : α → Bool) (l : List α) : (l.filter p).filter p = l.filter p := by
  induction l with
  | nil => rfl
  | cons a t ih =>
    rw [List.filter_cons]
    by_cases h : p a
    · rw [if_pos h, List.filter_cons, if_pos h, ih]
    · rw [if_neg h, ih]

/-- Inside an open frame, the scanner consumes exactly the lines up to
the next tag-matching line: the non-blank ones become payload parts, and
scanning resumes at that tag line. -/
lemma kagiGo_some (ls : List (List Char)) :
    ∀ (t : List Char) (parts : List (List Char)),
      kagiGo ls (some (t, parts)) =
        emitFrame t (parts ++ (ls.takeWhile notTag).filter (fun l => !pyBlank l)) ::
          kagiGo (ls.dropWhile notTag) none := by
  induction ls with
  | nil => intro t parts; simp [kagiGo]
  | cons l ls ih =>
    intro t parts
    by_cases hb : pyBlank l
    · have hnt : notTag l = true := by simp [notTag, tagSplit_blank hb]
      rw [show kagiGo (l :: ls) (some (t, parts)) = kagiGo ls (some (t, parts)) from by
        simp [kagiGo, hb]]
      rw [ih t parts, List.takeWhile_cons_of_pos hnt, List.dropWhile_cons_of_pos hnt,
        List.filter_cons]
      rw [if_neg (by simp [hb])]
    · cases ht : tagSplit l with
      | some pr =>
        obtain ⟨t2, rem2⟩ := pr
        have hnt : notTag l = false := by simp [notTag, ht]
        rw [show kagiGo (l :: ls) (some (t, parts)) =
            emitFrame t parts :: kagiGo ls (some (t2, [rem2])) from by
          simp [kagiGo, hb, ht]]
        rw [List.takeWhile_cons_of_neg (by simp [hnt]),
          List.dropWhile_cons_of_neg (by simp [hnt])]
        rw [show kagiGo (l :: ls) none = kagiGo ls (some (t2, [rem2])) from by
          simp [kagiGo, hb, ht]]
        simp
      | none =>
        have hnt : notTag l = true := by simp [notTag, ht]
        rw [show kagiGo (l :: ls) (some (t, parts)) =
            kagiGo ls (some (t, parts ++ [l])) from by simp [kagiGo, hb, ht]]
        rw [ih t (parts ++ [l]), List.takeWhile_cons_of_pos hnt,
          List.dropWhile_cons_of_pos hnt, List.filter_cons]
        rw [if_pos (by simp [hb]), List.append_assoc]
        rfl

/-- Spec-side framer: a tag-matching line yields a frame whose payload is
the newline-join of the non-blank entries among the inline remainder
followed by the lines up to (not including) the next tag-matching line
or end of input; every other line is skipped. -/
def framesSpec (ls : List (List Char)) : List KagiStreamLine :=
  match ls with
  | [] => []
  | l :: ls2 =>
    match tagSplit l with
    | some (t, rem) =>
      ⟨String.mk t,
        String.mk (joinNl ((rem :: ls2.takeWhile notTag).filter (fun p => !pyBlank p)))⟩ ::
        framesSpec (ls2.dropWhile notTag)
    | none => framesSpec ls2
termination_by ls.length
decreasing_by
  · simp only [List.length_cons]
    exact Nat.lt_succ_of_le (length_dropWhile_le' _ _)
  · simp

lemma kagiGo_none_eq :
    ∀ (n : Nat) (ls : List (List Char)), ls.length ≤ n → kagiGo ls none = framesSpec ls := by
  intro n
  induction n with
  | zero =>
    intro ls h
    have hnil : ls = [] := List.length_eq_zero.mp (Nat.le_zero.mp h)
    subst hnil
    simp [framesSpec, kagiGo]
  | succ n ih =>
    intro ls h
    cases ls with
    | nil => simp [framesSpec, kagiGo]
    | cons l ls2 =>
      by_cases hb : pyBlank l
      · rw [show kagiGo (l :: ls2) none = kagiGo ls2 none from by simp [kagiGo, hb]]
        rw [ih ls2 (Nat.le_of_succ_le_succ h)]
        rw [framesSpec, tagSplit_blank hb]
      · cases ht : tagSplit l with
        | none =>
          rw [show kagiGo (l :: ls2) none = kagiGo ls2 none from by simp [kagiGo, hb, ht]]
          rw [ih ls2 (Nat.le_of_succ_le_succ h)]
          rw [framesSpec, ht]
        | some pr =>
          obtain ⟨t, rem⟩ := pr
          rw [show kagiGo (l :: ls2) none = kagiGo ls2 (some (t, [rem])) from by
            simp [kagiGo, hb, ht]]
          rw [kagiGo_some]
          have hrest : (ls2.dropWhile notTag).length ≤ n :=
            le_trans (length_dropWhile_le' _ _) (Nat.le_of_succ_le_succ h)
          rw [ih _ hrest]
          rw [show framesSpec (l :: ls2) =
              ⟨String.mk t, String.mk (joinNl
                ((rem :: ls2.takeWhile notTag).filter (fun p => !pyBlank p)))⟩ ::
                framesSpec (ls2.dropWhile notTag) from by rw [framesSpec, ht]]
          congr 1
          unfold emitFrame
          congr 2
          rw [show ([rem] ++ (ls2.takeWhile notTag).filter (fun l => !pyBlank l)) =
            rem :: (ls2.takeWhile notTag).filter (fun l => !pyBlank l) from rfl]
          rw [List.filter_cons, List.filter_cons, filter_idem]

/-- C3 (amended): for every input text, the proprietary framer emits
exactly the frames of `framesSpec`: each frame's payload is the
newline-join of the non-blank entries among the tag line's *inline
remainder* followed by the lines after the tag line up to (not
including) the next tag-matching line or end of input. -/
theorem c3_kagi_payload_amended :
    ∀ text : String, parse_kagi_stream_lines text = framesSpec (pyLines text) :=
  fun text => kagiGo_none_eq (pyLines text).length (pyLines text) le_rfl

/-- Counterexample to C3 as stated: on `"a:b\nc"` the only frame's
payload is `"b\nc"` (the inline remainder `"b"` is included), while the
newline-join of just the non-blank lines following the tag line up to
the next tag-matching line or EOF is `"c"`. -/
theorem c3_counterexample_inline_remainder :
    parse_kagi_stream_lines "a:b\nc" = [⟨"a", "b\nc"⟩] ∧
    (((pyLines "a:b\nc").drop 1).takeWhile notTag).filter (fun p => !pyBlank p) =
      ["c".data] ∧
    String.mk (joinNl ["c".data]) = "c" ∧
    ("b\nc" : String) ≠ "c" := by
  refine ⟨by decide, by decide, by decide, by decide⟩

/-! ### Summarizer record selection (claim C2) -/

/-- Spec side: a decoded record is `final`-tagged (`type == "final"`). -/
def specIsFinal (d : Json) : Bool :=
  match d with
  | .obj kvs => (jlookup kvs "type").any (fun v => jeqStr v "final")
  | _ => false

/-- Spec side: a decoded record's `output_data` (`{}` when absent). -/
def specOutputData (d : Json) : Json :=
  match d with
  | .obj kvs => (jlookup kvs "output_data").getD (.obj [])
  | _ => .obj []

/-- Spec side: a decoded record with `output_data.status == "completed"`. -/
def specIsCompleted (d : Json) : Bool :=
  match specOutputData d with
  | .obj kvs => (jlookup kvs "status").any (fun v => jeqStr v "completed")
  | _ => false

/-- The spec's selection priority over the decoded records: the
`final`-tagged record if one exists, else the last record whose
`output_data.status` is `"completed"`, else the last record. -/
def specSummarySelect (ds : List Json) : Option Json :=
  match ds.find? specIsFinal with
  | some d => some d
  | none =>
    match ds.reverse.find? specIsCompleted with
    | some d => some d
    | none => ds.getLast?

/-- The well-formedness the selection loops rely on: the record is a dict
and its `output_data`, when present, is a dict. -/
def summaryRecWF (d : Json) : Bool :=
  match d with
  | .obj kvs =>
    match (jlookup kvs "output_data").getD (.obj []) with
    | .obj _ => true
    | _ => false
  | _ => false

lemma recWF_obj {d : Json} (hwf : summaryRecWF d = true) :
    ∃ kvs, d = Json.obj kvs := by
  cases d with
  | obj kvs => exact ⟨kvs, rfl⟩
  | null => simp [summaryRecWF] at hwf
  | bool b => simp [summaryRecWF] at hwf
  | num n => simp [summaryRecWF] at hwf
  | str s => simp [summaryRecWF] at hwf
  | arr xs => simp [summaryRecWF] at hwf

lemma recWF_od_obj {kvs : List (String × Json)}
    (hwf : summaryRecWF (Json.obj kvs) = true) :
    ∃ kvs2, (jlookup kvs "output_data").getD (.obj []) = Json.obj kvs2 := by
  cases hod : (jlookup kvs "output_data").getD (.obj []) with
  | obj kvs2 => exact ⟨kvs2, rfl⟩
  | null => simp [summaryRecWF, hod] at hwf
  | bool b => simp [summaryRecWF, hod] at hwf
  | num n => simp [summaryRecWF, hod] at hwf
  | str s => simp [summaryRecWF, hod] at hwf
  | arr xs => simp [summaryRecWF, hod] at hwf

lemma summaryFindFinal_eq (jl : String → Option Json) :
    ∀ lines : List KagiStreamLine,
      (∀ l ∈ lines, ∃ d, jl l.payload = some d ∧ summaryRecWF d = true) →
      summaryFindFinal jl lines =
        .ok ((lines.map (fun l => (jl l.payload).getD .null)).find? specIsFinal) := by
  intro lines
  induction lines with
  | nil => intro _; rfl
  | cons l ls ih =>
    intro h
    obtain ⟨d, hd, hwf⟩ := h l (List.mem_cons_self _ _)
    obtain ⟨kvs, rfl⟩ := recWF_obj hwf
    have hstep : summaryFindFinal jl (l :: ls) =
        if (jlookup kvs "type").any (fun v => jeqStr v "final") then
          Except.ok (some (Json.obj kvs))
        else summaryFindFinal jl ls := by
      conv_lhs => unfold summaryFindFinal
      rw [hd]
      rfl
    rw [List.map_cons, hd]
    by_cases hfin : (jlookup kvs "type").any (fun v => jeqStr v "final")
    · rw [hstep, if_pos hfin,
        List.find?_cons_of_pos _ (by simpa [specIsFinal] using hfin)]
      rfl
    · rw [hstep, if_neg hfin, ih (fun x hx => h x (List.mem_cons_of_mem _ hx)),
        List.find?_cons_of_neg _ (by simpa [specIsFinal] using hfin)]

lemma summaryFindCompleted_eq (jl : String → Option Json) :
    ∀ lines : List KagiStreamLine,
      (∀ l ∈ lines, ∃ d, jl l.payload = some d ∧ summaryRecWF d = true) →
      summaryFindCompleted jl lines =
        .ok ((lines.map (fun l => (jl l.payload).getD .null)).find? specIsCompleted) := by
  intro lines
  induction lines with
  | nil => intro _; rfl
  | cons l ls ih =>
    intro h
    obtain ⟨d, hd, hwf⟩ := h l (List.mem_cons_self _ _)
    obtain ⟨kvs, rfl⟩ := recWF_obj hwf
    obtain ⟨kvs2, hod⟩ := recWF_od_obj hwf
    have h1 : summaryFindCompleted jl (l :: ls) = (do
        let od := (jlookup kvs "output_data").getD (.obj [])
        let st ← jget od "status"
        if st.any (fun v => jeqStr v "completed") then Except.ok (some (Json.obj kvs))
        else summaryFindCompleted jl ls) := by
      conv_lhs => unfold summaryFindCompleted
      rw [hd]
      rfl
    rw [hod] at h1
    have h2 : summaryFindCompleted jl (l :: ls) =
        if (jlookup kvs2 "status").any (fun v => jeqStr v "completed") then
          Except.ok (some (Json.obj kvs))
        else summaryFindCompleted jl ls := by
      rw [h1]
      rfl
    have hcompval : specIsCompleted (Json.obj kvs) =
        (jlookup kvs2 "status").any (fun v => jeqStr v "completed") := by
      simp only [specIsCompleted, specOutputData, hod]
    rw [List.map_cons, hd]
    by_cases hcomp : (jlookup kvs2 "status").any (fun v => jeqStr v "completed")
    · rw [h2, if_pos hcomp,
        List.find?_cons_of_pos _ (by simp [hcompval, hcomp])]
      rfl
    · rw [h2, if_neg hcomp, ih (fun x hx => h x (List.mem_cons_of_mem _ hx)),
        List.find?_cons_of_neg _ (by simp [hcompval, hcomp])]

/-- C2: for every non-empty frame sequence whose payloads all decode to
well-formed records, the non-streaming summarize reducer returns
`mkSummaryResult` of exactly the record chosen by the spec's priority:
the (first) `type == "final"` record if one exists, else the last record
with `output_data.status == "completed"`, else the last frame's record. -/
theorem c2_summary_final_selection :
    ∀ (jl : String → Option Json) (lines : List KagiStreamLine),
      lines ≠ [] →
      (∀ l ∈ lines, ∃ d, jl l.payload = some d ∧ summaryRecWF d = true) →
      ∃ d, specSummarySelect (lines.map (fun l => (jl l.payload).getD .null)) = some d ∧
        summaryReduce jl lines = mkSummaryResult d := by
  intro jl lines hne hwf
  have hA : summaryFindFinal jl lines =
      .ok ((lines.map (fun l => (jl l.payload).getD .null)).find? specIsFinal) :=
    summaryFindFinal_eq jl lines hwf
  have hB : summaryFindCompleted jl lines.reverse =
      .ok ((lines.reverse.map (fun l => (jl l.payload).getD .null)).find? specIsCompleted) :=
    summaryFindCompleted_eq jl lines.reverse
      (fun x hx => hwf x (List.mem_reverse.mp hx))
  rw [List.map_reverse] at hB
  unfold summaryReduce
  rw [hA]
  cases hfin : (lines.map (fun l => (jl l.payload).getD .null)).find? specIsFinal with
  | some d =>
    refine ⟨d, ?_, ?_⟩
    · unfold specSummarySelect
      rw [hfin]
    · rfl
  | none =>
    cases hcomp : ((lines.map (fun l => (jl l.payload).getD Json.null)).reverse.find?
        specIsCompleted) with
    | some d =>
      refine ⟨d, ?_, ?_⟩
      · unfold specSummarySelect
        rw [hfin, hcomp]
      · show (summaryFindCompleted jl lines.reverse).bind (fun fd1 =>
          match fd1 with
          | some d2 => mkSummaryResult d2
          | none =>
            match lines.getLast? with
            | none => Except.error PyErr.indexError
            | some l =>
              match jl l.payload with
              | none => Except.error PyErr.jsonError
              | some d2 => mkSummaryResult d2) = mkSummaryResult d
        rw [hB, hcomp]
        rfl
    | none =>
      obtain ⟨llast, hlast⟩ : ∃ x, lines.getLast? = some x := by
        cases hgl : lines.getLast? with
        | none => exact absurd (List.getLast?_eq_none_iff.mp hgl) hne
        | some x => exact ⟨x, rfl⟩
      obtain ⟨dlast, hdlast, _⟩ := hwf llast (List.mem_of_mem_getLast? hlast)
      refine ⟨dlast, ?_, ?_⟩
      · unfold specSummarySelect
        rw [hfin, hcomp, List.getLast?_map, hlast]
        simp [hdlast]
      · show (summaryFindCompleted jl lines.reverse).bind (fun fd1 =>
          match fd1 with
          | some d2 => mkSummaryResult d2
          | none =>
            match lines.getLast? with
            | none => Except.error PyErr.indexError
            | some l =>
              match jl l.payload with
              | none => Except.error PyErr.jsonError
              | some d2 => mkSummaryResult d2) = mkSummaryResult dlast
        rw [hB, hcomp]
        show (match lines.getLast? with
          | none => Except.error PyErr.indexError
          | some l =>
            match jl l.payload with
            | none => Except.error PyErr.jsonError
            | some d2 => mkSummaryResult d2) = mkSummaryResult dlast
        rw [hlast]
        show (match jl llast.payload with
          | none => Except.error PyErr.jsonError
          | some d2 => mkSummaryResult d2) = mkSummaryResult dlast
        rw [hdlast]

/-- Concrete `update`-record payload (valid JSON text). -/
def demoSummaryPayloadUpdate1 : String := "\x7b\"type\": \"update\", \"output_text\": \"a\"\x7d"

/-- Second concrete `update`-record payload. -/
def demoSummaryPayloadUpdate2 : String := "\x7b\"type\": \"update\", \"output_text\": \"ab\"\x7d"

/-- Concrete `final`-record payload. -/
def demoSummaryPayloadFinal : String :=
  "\x7b\"type\": \"final\", \"output_text\": \"done\", \"output_data\": \x7b\"status\": \"completed\"\x7d\x7d"

/-- The decoded `final` record of `demoSummaryPayloadFinal`. -/
def demoFinalRecord : Json :=
  .obj [("type", .str "final"), ("output_text", .str "done"),
    ("output_data", .obj [("status", .str "completed")])]

/-- A decoder agreeing with `json.loads` on the three demo payloads (and
refusing everything else). -/
def demoSummaryDecode : String → Option Json := fun s =>
  if s = demoSummaryPayloadUpdate1 then
    some (.obj [("type", .str "update"), ("output_text", .str "a")])
  else if s = demoSummaryPayloadUpdate2 then
    some (.obj [("type", .str "update"), ("output_text", .str "ab")])
  else if s = demoSummaryPayloadFinal then some demoFinalRecord
  else none

/-- The frame sequence `[update, update, final]` of the claim. -/
def demoSummaryLines : List KagiStreamLine :=
  [⟨"update", demoSummaryPayloadUpdate1⟩, ⟨"update", demoSummaryPayloadUpdate2⟩,
    ⟨"final", demoSummaryPayloadFinal⟩]

/-- Witness for C2: on `[update, update, final]` the reducer returns the
result built from the `final` frame's record. -/
theorem c2_summary_final_selection_witness :
    summaryReduce demoSummaryDecode demoSummaryLines = mkSummaryResult demoFinalRecord := by
  obtain ⟨d, hsel, hred⟩ := c2_summary_final_selection demoSummaryDecode demoSummaryLines
    (by decide)
    (by
      intro l hl
      rcases List.mem_cons.mp hl with rfl | hl
      · exact ⟨_, rfl, rfl⟩
      rcases List.mem_cons.mp hl with rfl | hl
      · exact ⟨_, rfl, rfl⟩
      rcases List.mem_cons.mp hl with rfl | hl
      · exact ⟨_, rfl, rfl⟩
      · simp at hl)
  have h0 : specSummarySelect (demoSummaryLines.map
      (fun l => (demoSummaryDecode l.payload).getD .null)) = some demoFinalRecord := rfl
  have hd : demoFinalRecord = d := Option.some.inj (h0.symm.trans hsel)
  rw [hred, ← hd]

/-! ### Assistant mandatory frames (claim C6) -/

/-- Decode one `thread.json` frame into a thread record (`none` models
any raised decode or construction error). -/
def decodeThread (pj : String → Option Json) (l : KagiStreamLine) : Option AssistantThread :=
  (pj l.payload).bind (fun d => (mkAssistantThread d).toOption)

/-- Decode one `new_message.json` frame into a message record. -/
def decodeMsg (pj : String → Option Json) (l : KagiStreamLine) : Option AssistantMessage :=
  (pj l.payload).bind (fun d => (mkAssistantMessage d).toOption)

lemma decodeThread_elim {pj : String → Option Json} {l : KagiStreamLine}
    {t : AssistantThread} (h : decodeThread pj l = some t) :
    ∃ d, pj l.payload = some d ∧ mkAssistantThread d = .ok t := by
  unfold decodeThread at h
  cases hp : pj l.payload with
  | none => rw [hp] at h; cases h
  | some d =>
    rw [hp] at h
    refine ⟨d, rfl, ?_⟩
    cases hmk : mkAssistantThread d with
    | error e => rw [show Option.bind (some d) (fun d => (mkAssistantThread d).toOption) =
        (mkAssistantThread d).toOption from rfl, hmk] at h; cases h
    | ok t2 =>
      rw [show Option.bind (some d) (fun d => (mkAssistantThread d).toOption) =
        (mkAssistantThread d).toOption from rfl, hmk] at h
      cases h
      rfl

lemma decodeMsg_elim {pj : String → Option Json} {l : KagiStreamLine}
    {m : AssistantMessage} (h : decodeMsg pj l = some m) :
    ∃ d, pj l.payload = some d ∧ mkAssistantMessage d = .ok m := by
  unfold decodeMsg at h
  cases hp : pj l.payload with
  | none => rw [hp] at h; cases h
  | some d =>
    rw [hp] at h
    refine ⟨d, rfl, ?_⟩
    cases hmk : mkAssistantMessage d with
    | error e => rw [show Option.bind (some d) (fun d => (mkAssistantMessage d).toOption) =
        (mkAssistantMessage d).toOption from rfl, hmk] at h; cases h
    | ok m2 =>
      rw [show Option.bind (some d) (fun d => (mkAssistantMessage d).toOption) =
        (mkAssistantMessage d).toOption from rfl, hmk] at h
      cases h
      rfl

/-- Under decodability of the tagged frames, the assistant loop never
fails and carries, for each of the two tags, the decoded record of the
*last* frame with that tag (or the incoming state when none occurs). -/
lemma assistantLoop_eq (pj : String → Option Json) :
    ∀ (lines : List KagiStreamLine) (th : Option AssistantThread)
      (msg : Option AssistantMessage),
      (∀ l ∈ lines,
        (l.tag = "thread.json" → (decodeThread pj l).isSome) ∧
        (l.tag = "new_message.json" → (decodeMsg pj l).isSome)) →
      assistantLoop pj lines th msg = .ok
        ((match (lines.filter (fun l => l.tag = "thread.json")).getLast? with
          | some l => decodeThread pj l
          | none => th),
          (match (lines.filter (fun l => l.tag = "new_message.json")).getLast? with
          | some l => decodeMsg pj l
          | none => msg)) := by
  intro lines
  induction lines with
  | nil => intro th msg _; rfl
  | cons l ls ih =>
    intro th msg h
    have htail := fun x hx => h x (List.mem_cons_of_mem _ hx)
    by_cases ht : l.tag = "thread.json"
    · obtain ⟨t, hdec⟩ := Option.isSome_iff_exists.mp ((h l (List.mem_cons_self _ _)).1 ht)
      obtain ⟨d, hpj, hmk⟩ := decodeThread_elim hdec
      have hstep : assistantLoop pj (l :: ls) th msg = assistantLoop pj ls (some t) msg := by
        conv_lhs => unfold assistantLoop
        rw [if_pos ht, hpj]
        show (do
          let t2 ← mkAssistantThread d
          assistantLoop pj ls (some t2) msg) = assistantLoop pj ls (some t) msg
        rw [hmk]
        rfl
      have hmsgtag : (l.tag = "new_message.json") = False := by
        simp [ht]
      rw [hstep, ih (some t) msg htail, List.filter_cons, List.filter_cons,
        if_pos (by simp [ht]), if_neg (by simp [hmsgtag]), List.getLast?_cons]
      cases hgl : (ls.filter (fun x => x.tag = "thread.json")).getLast? with
      | none => simp [hgl, hdec]
      | some x => simp [hgl]
    · by_cases hm : l.tag = "new_message.json"
      · obtain ⟨m, hdec⟩ := Option.isSome_iff_exists.mp ((h l (List.mem_cons_self _ _)).2 hm)
        obtain ⟨d, hpj, hmk⟩ := decodeMsg_elim hdec
        have hstep : assistantLoop pj (l :: ls) th msg = assistantLoop pj ls th (some m) := by
          conv_lhs => unfold assistantLoop
          rw [if_neg ht, if_pos hm, hpj]
          show (do
            let m2 ← mkAssistantMessage d
            assistantLoop pj ls th (some m2)) = assistantLoop pj ls th (some m)
          rw [hmk]
          rfl
        rw [hstep, ih th (some m) htail, List.filter_cons, List.filter_cons,
          if_neg (by simp [ht]), if_pos (by simp [hm]), List.getLast?_cons]
        cases hgl : (ls.filter (fun x => x.tag = "new_message.json")).getLast? with
        | none => simp [hgl, hdec]
        | some x => simp [hgl]
      · have hstep : assistantLoop pj (l :: ls) th msg = assistantLoop pj ls th msg := by
          conv_lhs => unfold assistantLoop
          rw [if_neg ht, if_neg hm]
        rw [hstep, ih th msg htail, List.filter_cons, List.filter_cons,
          if_neg (by simp [ht]), if_neg (by simp [hm])]

lemma filter_getLast?_none_iff (tag : String) (lines : List KagiStreamLine) :
    ((lines.filter (fun l => l.tag = tag)).getLast? = none) ↔
      ¬∃ l ∈ lines, l.tag = tag := by
  rw [List.getLast?_eq_none_iff, List.filter_eq_nil_iff]
  constructor
  · rintro h ⟨l, hl, htag⟩
    exact h l hl (by simp [htag])
  · intro h l hl htag
    exact h ⟨l, hl, by simpa using htag⟩

/-- C6: under decodability of the tagged frames, the assistant result
reducer fails with a hard (`APIError`) error iff the frame sequence has
no `thread.json` frame or no `new_message.json` frame; when both are
present it succeeds and the returned message is decoded from the last
`new_message.json` frame in arrival order. -/
theorem c6_assistant_mandatory_frames :
    ∀ (pj : String → Option Json) (lines : List KagiStreamLine),
      (∀ l ∈ lines,
        (l.tag = "thread.json" → (decodeThread pj l).isSome) ∧
        (l.tag = "new_message.json" → (decodeMsg pj l).isSome)) →
      ((∃ e, assistantReduce pj lines = .error e) ↔
        (¬∃ l ∈ lines, l.tag = "thread.json") ∨
        (¬∃ l ∈ lines, l.tag = "new_message.json")) ∧
      (∀ lm, (lines.filter (fun l => l.tag = "new_message.json")).getLast? = some lm →
        (∃ l ∈ lines, l.tag = "thread.json") →
        ∃ t m, assistantReduce pj lines = .ok ⟨t, m⟩ ∧ decodeMsg pj lm = some m) := by
  intro pj lines hwf
  have hloop := assistantLoop_eq pj lines none none hwf
  cases hgt : (lines.filter (fun l => l.tag = "thread.json")).getLast? with
  | none =>
    have hred : assistantReduce pj lines =
        .error (PyErr.apiError "No thread.json found in response") := by
      unfold assistantReduce
      rw [hloop, hgt]
      rfl
    have hnothread := (filter_getLast?_none_iff "thread.json" lines).mp hgt
    constructor
    · constructor
      · intro _
        exact Or.inl hnothread
      · intro _
        exact ⟨_, hred⟩
    · intro lm _ hthread
      exact absurd hthread hnothread
  | some lt =>
    have hltmem : lt ∈ lines ∧ lt.tag = "thread.json" := by
      have := List.mem_of_mem_getLast? hgt
      simpa using List.mem_filter.mp this
    obtain ⟨t, hdt⟩ :=
      Option.isSome_iff_exists.mp ((hwf lt hltmem.1).1 hltmem.2)
    have hthread : ∃ l ∈ lines, l.tag = "thread.json" := ⟨lt, hltmem.1, hltmem.2⟩
    cases hgm : (lines.filter (fun l => l.tag = "new_message.json")).getLast? with
    | none =>
      have hloop2 : assistantLoop pj lines none none = .ok (some t, none) := by
        rw [hloop, hgt, hgm]
        show (Except.ok (ε := PyErr) (decodeThread pj lt, (none : Option AssistantMessage))) = _
        rw [hdt]
      have hred : assistantReduce pj lines =
          .error (PyErr.apiError "No new_message.json found in response") := by
        unfold assistantReduce
        rw [hloop2]
        rfl
      have hnomsg := (filter_getLast?_none_iff "new_message.json" lines).mp hgm
      constructor
      · constructor
        · intro _
          exact Or.inr hnomsg
        · intro _
          exact ⟨_, hred⟩
      · intro lm hlm _
        exact Option.noConfusion hlm
    | some lm =>
      have hlmmem : lm ∈ lines ∧ lm.tag = "new_message.json" := by
        have := List.mem_of_mem_getLast? hgm
        simpa using List.mem_filter.mp this
      obtain ⟨m, hdm⟩ :=
        Option.isSome_iff_exists.mp ((hwf lm hlmmem.1).2 hlmmem.2)
      have hmsg : ∃ l ∈ lines, l.tag = "new_message.json" := ⟨lm, hlmmem.1, hlmmem.2⟩
      have hloop2 : assistantLoop pj lines none none = .ok (some t, some m) := by
        rw [hloop, hgt, hgm]
        show (Except.ok (ε := PyErr) (decodeThread pj lt, decodeMsg pj lm)) = _
        rw [hdt, hdm]
      have hred : assistantReduce pj lines = .ok ⟨t, m⟩ := by
        unfold assistantReduce
        rw [hloop2]
        rfl
      constructor
      · constructor
        · rintro ⟨e, he⟩
          rw [hred] at he
          cases he
        · rintro (hno | hno)
          · exact absurd hthread hno
          · exact absurd hmsg hno
      · intro lm2 hlm2 _
        injection hlm2 with hlm2
        subst hlm2
        exact ⟨t, m, hred, hdm⟩

/-- Concrete `thread.json` payload (valid JSON text). -/
def demoThreadPayload : String :=
  "\x7b\"id\": \"t1\", \"title\": \"Demo\", \"created_at\": \"2024\"\x7d"

/-- Concrete first (`waiting`) `new_message.json` payload. -/
def demoMsgPayload1 : String :=
  "\x7b\"id\": \"m1\", \"created_at\": \"2024\", \"state\": \"waiting\", \"prompt\": \"hi\"\x7d"

/-- Concrete last (`done`) `new_message.json` payload. -/
def demoMsgPayload2 : String :=
  "\x7b\"id\": \"m1\", \"created_at\": \"2024\", \"state\": \"done\", \"prompt\": \"hi\", \"reply\": \"<p>ok</p>\"\x7d"

/-- A decoder agreeing with `_parse_json` on the three demo payloads. -/
def demoAssistantDecode : String → Option Json := fun s =>
  if s = demoThreadPayload then
    some (.obj [("id", .str "t1"), ("title", .str "Demo"), ("created_at", .str "2024")])
  else if s = demoMsgPayload1 then
    some (.obj [("id", .str "m1"), ("created_at", .str "2024"),
      ("state", .str "waiting"), ("prompt", .str "hi")])
  else if s = demoMsgPayload2 then
    some (.obj [("id", .str "m1"), ("created_at", .str "2024"),
      ("state", .str "done"), ("prompt", .str "hi"), ("reply", .str "<p>ok</p>")])
  else none

/-- The last `new_message.json` frame of the demo stream. -/
def demoMsgFrame2 : KagiStreamLine := ⟨"new_message.json", demoMsgPayload2⟩

/-- Demo stream: one thread frame, then two message frames (state
transition `waiting` → `done`). -/
def demoAssistantLines : List KagiStreamLine :=
  [⟨"thread.json", demoThreadPayload⟩, ⟨"new_message.json", demoMsgPayload1⟩,
    demoMsgFrame2]

/-- Witness for C6: with both mandatory frames present the reducer
succeeds, and the returned message is decoded from the *last*
`new_message.json` frame. -/
theorem c6_assistant_mandatory_frames_witness :
    ∃ t m, assistantReduce demoAssistantDecode demoAssistantLines = .ok ⟨t, m⟩ ∧
      decodeMsg demoAssistantDecode demoMsgFrame2 = some m := by
  refine (c6_assistant_mandatory_frames demoAssistantDecode demoAssistantLines ?_).2
    demoMsgFrame2 (by decide) (by decide)
  intro l hl
  rcases List.mem_cons.mp hl with rfl | hl
  · exact ⟨fun _ => rfl, fun h => absurd h (by decide)⟩
  rcases List.mem_cons.mp hl with rfl | hl
  · exact ⟨fun h => absurd h (by decide), fun _ => rfl⟩
  rcases List.mem_cons.mp hl with rfl | hl
  · exact ⟨fun h => absurd h (by decide), fun _ => rfl⟩
  · simp at hl

/-! ### JSON-decode failure policy of the reducers (claim C1) -/

/-- A decoder that refuses its input: agrees with `json.loads` on every
non-JSON payload (such as `"notjson"` used in the instances below, on
which `json.loads` raises). -/
def decodeNone : String → Option Json := fun _ => none

lemma searchLoop_skip (jl : String → Option Json) :
    ∀ (events : List SSEEvent) (acc : SearchAcc),
      searchLoop jl events acc =
        searchLoop jl
          (events.filter (fun e => !pyBlank e.data.data && (jl e.data).isSome)) acc := by
  intro events
  induction events with
  | nil => intro acc; rfl
  | cons e es ih =>
    intro acc
    rw [List.filter_cons]
    by_cases hb : pyBlank e.data.data
    · rw [if_neg (by simp [hb])]
      rw [show searchLoop jl (e :: es) acc = searchLoop jl es acc from by
        conv_lhs => unfold searchLoop
        rw [if_pos hb]]
      exact ih acc
    · cases hjl : jl e.data with
      | none =>
        rw [if_neg (by simp [hb, hjl])]
        rw [show searchLoop jl (e :: es) acc = searchLoop jl es acc from by
          conv_lhs => unfold searchLoop
          rw [if_neg hb, hjl]]
        exact ih acc
      | some items =>
        rw [if_pos (by simp [hb, hjl])]
        cases items with
        | arr its =>
          have h1 : searchLoop jl (e :: es) acc =
              (searchItemsFold jl its acc).bind (fun acc2 => searchLoop jl es acc2) := by
            conv_lhs => unfold searchLoop
            rw [if_neg hb, hjl]
            rfl
          have h2 : searchLoop jl
              (e :: es.filter (fun e => !pyBlank e.data.data && (jl e.data).isSome)) acc =
              (searchItemsFold jl its acc).bind (fun acc2 =>
                searchLoop jl
                  (es.filter (fun e => !pyBlank e.data.data && (jl e.data).isSome)) acc2) := by
            conv_lhs => unfold searchLoop
            rw [if_neg hb, hjl]
            rfl
          rw [h1, h2]
          cases hf : searchItemsFold jl its acc with
          | error err => rfl
          | ok acc2 =>
            show searchLoop jl es acc2 = _
            exact ih acc2
        | null =>
          rw [show searchLoop jl (e :: es) acc = searchLoop jl es acc from by
            conv_lhs => unfold searchLoop
            rw [if_neg hb, hjl]]
          rw [show searchLoop jl (e :: es.filter _) acc =
              searchLoop jl (es.filter _) acc from by
            conv_lhs => unfold searchLoop
            rw [if_neg hb, hjl]]
          exact ih acc
        | bool b =>
          rw [show searchLoop jl (e :: es) acc = searchLoop jl es acc from by
            conv_lhs => unfold searchLoop
            rw [if_neg hb, hjl]]
          rw [show searchLoop jl (e :: es.filter _) acc =
              searchLoop jl (es.filter _) acc from by
            conv_lhs => unfold searchLoop
            rw [if_neg hb, hjl]]
          exact ih acc
        | num n =>
          rw [show searchLoop jl (e :: es) acc = searchLoop jl es acc from by
            conv_lhs => unfold searchLoop
            rw [if_neg hb, hjl]]
          rw [show searchLoop jl (e :: es.filter _) acc =
              searchLoop jl (es.filter _) acc from by
            conv_lhs => unfold searchLoop
            rw [if_neg hb, hjl]]
          exact ih acc
        | str s =>
          rw [show searchLoop jl (e :: es) acc = searchLoop jl es acc from by
            conv_lhs => unfold searchLoop
            rw [if_neg hb, hjl]]
          rw [show searchLoop jl (e :: es.filter _) acc =
              searchLoop jl (es.filter _) acc from by
            conv_lhs => unfold searchLoop
            rw [if_neg hb, hjl]]
          exact ih acc
        | obj kvs =>
          rw [show searchLoop jl (e :: es) acc = searchLoop jl es acc from by
            conv_lhs => unfold searchLoop
            rw [if_neg hb, hjl]]
          rw [show searchLoop jl (e :: es.filter _) acc =
              searchLoop jl (es.filter _) acc from by
            conv_lhs => unfold searchLoop
            rw [if_neg hb, hjl]]
          exact ih acc

lemma proofreadLoop_append_err (jl : String → Option Json) :
    ∀ (es₁ : List SSEEvent) (st st' : PRState) (ev : SSEEvent) (es₂ : List SSEEvent),
      proofreadLoop jl es₁ st = .ok st' → jl ev.data = none →
      proofreadLoop jl (es₁ ++ ev :: es₂) st = .error .jsonError := by
  intro es₁
  induction es₁ with
  | nil =>
    intro st st' ev es₂ _ h2
    show proofreadLoop jl (ev :: es₂) st = _
    conv_lhs => unfold proofreadLoop
    rw [h2]
  | cons e es ih =>
    intro st st' ev es₂ h1 h2
    cases hjl : jl e.data with
    | none =>
      exfalso
      rw [show proofreadLoop jl (e :: es) st = .error .jsonError from by
        conv_lhs => unfold proofreadLoop
        rw [hjl]] at h1
      cases h1
    | some d =>
      rw [show proofreadLoop jl (e :: es) st =
          (proofreadStep d st).bind (fun st2 => proofreadLoop jl es st2) from by
        conv_lhs => unfold proofreadLoop
        rw [hjl]
        rfl] at h1
      show proofreadLoop jl (e :: (es ++ ev :: es₂)) st = _
      rw [show proofreadLoop jl (e :: (es ++ ev :: es₂)) st =
          (proofreadStep d st).bind (fun st2 => proofreadLoop jl (es ++ ev :: es₂) st2) from by
        conv_lhs => unfold proofreadLoop
        rw [hjl]
        rfl]
      cases hps : proofreadStep d st with
      | error err =>
        rw [hps] at h1
        exact absurd h1 (by simp [Except.bind])
      | ok st2 =>
        rw [hps] at h1
        have h1b : proofreadLoop jl es st2 = .ok st' := h1
        show proofreadLoop jl (es ++ ev :: es₂) st2 = _
        exact ih st2 st' ev es₂ h1b h2

lemma summaryFindFinal_append_err (jl : String → Option Json) :
    ∀ (l₁ : List KagiStreamLine) (bad : KagiStreamLine) (l₂ : List KagiStreamLine),
      summaryFindFinal jl l₁ = .ok none → jl bad.payload = none →
      summaryFindFinal jl (l₁ ++ bad :: l₂) = .error .jsonError := by
  intro l₁
  induction l₁ with
  | nil =>
    intro bad l₂ _ h2
    show summaryFindFinal jl (bad :: l₂) = _
    conv_lhs => unfold summaryFindFinal
    rw [h2]
  | cons l ls ih =>
    intro bad l₂ h1 h2
    cases hjl : jl l.payload with
    | none =>
      exfalso
      rw [show summaryFindFinal jl (l :: ls) = .error .jsonError from by
        conv_lhs => unfold summaryFindFinal
        rw [hjl]] at h1
      cases h1
    | some d =>
      have hstep : ∀ tail : List KagiStreamLine, summaryFindFinal jl (l :: tail) =
          (jget d "type").bind (fun t =>
            if t.any (fun v => jeqStr v "final") then Except.ok (some d)
            else summaryFindFinal jl tail) := by
        intro tail
        conv_lhs => unfold summaryFindFinal
        rw [hjl]
        rfl
      rw [hstep ls] at h1
      show summaryFindFinal jl (l :: (ls ++ bad :: l₂)) = _
      rw [hstep (ls ++ bad :: l₂)]
      cases hjg : jget d "type" with
      | error err =>
        rw [hjg] at h1
        exact absurd h1 (by simp [Except.bind])
      | ok t =>
        rw [hjg] at h1
        have h1b : (if t.any (fun v => jeqStr v "final") then Except.ok (ε := PyErr) (some d)
            else summaryFindFinal jl ls) = .ok none := h1
        by_cases hc : t.any (fun v => jeqStr v "final")
        · rw [if_pos hc] at h1b
          injection h1b with h1c
          cases h1c
        · rw [if_neg hc] at h1b
          show (if t.any (fun v => jeqStr v "final") then Except.ok (ε := PyErr) (some d)
            else summaryFindFinal jl (ls ++ bad :: l₂)) = _
          rw [if_neg hc]
          exact ih bad l₂ h1b h2

lemma assistantLoop_append_err (pj : String → Option Json) :
    ∀ (l₁ : List KagiStreamLine) (th : Option AssistantThread)
      (msg : Option AssistantMessage) (r : Option AssistantThread × Option AssistantMessage)
      (bad : KagiStreamLine) (l₂ : List KagiStreamLine),
      assistantLoop pj l₁ th msg = .ok r → bad.tag = "thread.json" →
      pj bad.payload = none →
      assistantLoop pj (l₁ ++ bad :: l₂) th msg = .error .jsonError := by
  intro l₁
  induction l₁ with
  | nil =>
    intro th msg r bad l₂ _ htag h2
    show assistantLoop pj (bad :: l₂) th msg = _
    conv_lhs => unfold assistantLoop
    rw [if_pos htag, h2]
  | cons l ls ih =>
    intro th msg r bad l₂ h1 htag h2
    by_cases ht : l.tag = "thread.json"
    · cases hpjl : pj l.payload with
      | none =>
        exfalso
        rw [show assistantLoop pj (l :: ls) th msg = .error .jsonError from by
          conv_lhs => unfold assistantLoop
          rw [if_pos ht, hpjl]] at h1
        cases h1
      | some d =>
        have hstep : ∀ tail th2, assistantLoop pj (l :: tail) th2 msg =
            (mkAssistantThread d).bind (fun t => assistantLoop pj tail (some t) msg) := by
          intro tail th2
          conv_lhs => unfold assistantLoop
          rw [if_pos ht, hpjl]
          rfl
        rw [hstep ls th] at h1
        show assistantLoop pj (l :: (ls ++ bad :: l₂)) th msg = _
        rw [hstep (ls ++ bad :: l₂) th]
        cases hmk : mkAssistantThread d with
        | error err =>
          rw [hmk] at h1
          exact absurd h1 (by simp [Except.bind])
        | ok t =>
          rw [hmk] at h1
          have h1b : assistantLoop pj ls (some t) msg = .ok r := h1
          show assistantLoop pj (ls ++ bad :: l₂) (some t) msg = _
          exact ih (some t) msg r bad l₂ h1b htag h2
    · by_cases hm : l.tag = "new_message.json"
      · cases hpjl : pj l.payload with
        | none =>
          exfalso
          rw [show assistantLoop pj (l :: ls) th msg = .error .jsonError from by
            conv_lhs => unfold assistantLoop
            rw [if_neg ht, if_pos hm, hpjl]] at h1
          cases h1
        | some d =>
          have hstep : ∀ tail msg2, assistantLoop pj (l :: tail) th msg2 =
              (mkAssistantMessage d).bind (fun m => assistantLoop pj tail th (some m)) := by
            intro tail msg2
            conv_lhs => unfold assistantLoop
            rw [if_neg ht, if_pos hm, hpjl]
            rfl
          rw [hstep ls msg] at h1
          show assistantLoop pj (l :: (ls ++ bad :: l₂)) th msg = _
          rw [hstep (ls ++ bad :: l₂) msg]
          cases hmk : mkAssistantMessage d with
          | error err =>
            rw [hmk] at h1
            exact absurd h1 (by simp [Except.bind])
          | ok m =>
            rw [hmk] at h1
            have h1b : assistantLoop pj ls th (some m) = .ok r := h1
            show assistantLoop pj (ls ++ bad :: l₂) th (some m) = _
            exact ih th (some m) r bad l₂ h1b htag h2
      · rw [show assistantLoop pj (l :: ls) th msg = assistantLoop pj ls th msg from by
          conv_lhs => unfold assistantLoop
          rw [if_neg ht, if_neg hm]] at h1
        show assistantLoop pj (l :: (ls ++ bad :: l₂)) th msg = _
        rw [show assistantLoop pj (l :: (ls ++ bad :: l₂)) th msg =
            assistantLoop pj (ls ++ bad :: l₂) th msg from by
          conv_lhs => unfold assistantLoop
          rw [if_neg ht, if_neg hm]]
        exact ih th msg r bad l₂ h1 htag h2

/-- C1 (amended): a frame whose payload/data fails to parse as JSON is
skipped at the frame level *only in the search reducer* (its fold
continues, identical to running on the stream with the undecodable and
blank-data frames removed); in the proofread, summarize and assistant
result reducers, a frame whose payload fails to decode aborts the fold:
the `JSONDecodeError` propagates out of the reducer. -/
theorem c1_json_decode_policy_amended :
    (∀ (jl : String → Option Json) (events : List SSEEvent) (acc : SearchAcc),
      searchLoop jl events acc =
        searchLoop jl
          (events.filter (fun e => !pyBlank e.data.data && (jl e.data).isSome)) acc) ∧
    (∀ (jl : String → Option Json) (es₁ : List SSEEvent) (st st' : PRState)
        (ev : SSEEvent) (es₂ : List SSEEvent),
      proofreadLoop jl es₁ st = .ok st' → jl ev.data = none →
      proofreadLoop jl (es₁ ++ ev :: es₂) st = .error .jsonError) ∧
    (∀ (jl : String → Option Json) (l₁ : List KagiStreamLine) (bad : KagiStreamLine)
        (l₂ : List KagiStreamLine),
      summaryFindFinal jl l₁ = .ok none → jl bad.payload = none →
      summaryReduce jl (l₁ ++ bad :: l₂) = .error .jsonError) ∧
    (∀ (pj : String → Option Json) (l₁ : List KagiStreamLine)
        (r : Option AssistantThread × Option AssistantMessage) (bad : KagiStreamLine)
        (l₂ : List KagiStreamLine),
      assistantLoop pj l₁ none none = .ok r → bad.tag = "thread.json" →
      pj bad.payload = none →
      assistantReduce pj (l₁ ++ bad :: l₂) = .error .jsonError) := by
  refine ⟨searchLoop_skip, proofreadLoop_append_err, ?_, ?_⟩
  · intro jl l₁ bad l₂ h1 h2
    unfold summaryReduce
    rw [summaryFindFinal_append_err jl l₁ bad l₂ h1 h2]
    rfl
  · intro pj l₁ r bad l₂ h1 htag h2
    unfold assistantReduce
    rw [assistantLoop_append_err pj l₁ none none r bad l₂ h1 htag h2]
    rfl

/-- Witness for C1 (amended), at one concrete undecodable frame per
reducer. -/
theorem c1_json_decode_policy_amended_witness :
    searchLoop decodeNone [⟨none, "notjson", none⟩] ⟨[], none, []⟩ =
      searchLoop decodeNone [] ⟨[], none, []⟩ ∧
    proofreadLoop decodeNone [⟨none, "notjson", none⟩] ⟨none, [], none⟩ =
      .error .jsonError ∧
    summaryReduce decodeNone [⟨"update", "notjson"⟩] = .error .jsonError ∧
    assistantReduce decodeNone [⟨"thread.json", "notjson"⟩] = .error .jsonError := by
  refine ⟨?_, ?_, ?_, ?_⟩
  · exact c1_json_decode_policy_amended.1 decodeNone [⟨none, "notjson", none⟩] ⟨[], none, []⟩
  · exact c1_json_decode_policy_amended.2.1 decodeNone [] ⟨none, [], none⟩ ⟨none, [], none⟩
      ⟨none, "notjson", none⟩ [] rfl rfl
  · exact c1_json_decode_policy_amended.2.2.1 decodeNone [] ⟨"update", "notjson"⟩ [] rfl rfl
  · exact c1_json_decode_policy_amended.2.2.2 decodeNone [] (none, none)
      ⟨"thread.json", "notjson"⟩ [] rfl rfl rfl

/-- Counterexample to C1 as stated: on SSE text whose single frame's data
is not JSON, the proofread reducer does not skip the frame — the decode
error propagates out of `_parse_proofread_response`. -/
theorem c1_counterexample_decode_error_propagates :
    parse_proofread_response decodeNone "data: notjson\n\n" = .error .jsonError ∧
    parse_sse_events "data: notjson\n\n" = [⟨none, "notjson", none⟩] := by
  constructor
  · rfl
  · decide

end KagiSpec